import Mathlib

/-!
Verification of the RobertaEmailer receiver service (RobertaEmailer.py and
the shared serializer of RobertaSender.py) against its specification.

The Python source is shallowly embedded: pure helper functions become Lean
functions over `String` / `List Char`; the HTTP POST handler becomes a pure
function from an abstract request (plus a transport oracle) to the response
it writes and the relay call it makes; the threaded mail relay becomes a
trace model whose validity captures `threading.Lock` semantics.  JSON
numbers are modelled as exact scaled decimals `m * 10 ^ e` (Python holds
binary floats whose `repr` round-trips; the decimal model captures the same
value-level round-trip without IEEE bit semantics).
-/

namespace Roberta

/-! ## Python string primitives -/

/-- The whitespace characters stripped by Python's `str.strip` (ASCII range). -/
def isPySpace (c : Char) : Bool :=
  c = ' ' || c = '\t' || c = '\n' || c = '\r' || c = '\x0b' || c = '\x0c'

/-- Strip leading whitespace from a character list (`str.lstrip`). -/
def stripL (cs : List Char) : List Char := cs.dropWhile isPySpace

/-- Strip trailing whitespace from a character list (`str.rstrip`). -/
def stripR (cs : List Char) : List Char := (cs.reverse.dropWhile isPySpace).reverse

/-- Strip both ends (`str.strip`). -/
def stripLR (cs : List Char) : List Char := stripR (stripL cs)

/-- Python `str.strip()`. -/
def pyStrip (s : String) : String := String.mk (stripLR s.data)

/-- Python `str.lstrip()`. -/
def pyLStrip (s : String) : String := String.mk (stripL s.data)

/-- Python `str.lower()` (ASCII case folding). -/
def pyLower (s : String) : String := String.mk (s.data.map Char.toLower)

/-- Python `a.startswith(b)`. -/
def pyStartsWith (s pre : String) : Bool := pre.data.isPrefixOf s.data

/-- Python `str.replace` scan: replace non-overlapping occurrences of
`pat` left to right.  `skip > 0` means that many pattern characters are
still to be discarded after a match was emitted. -/
def replaceGo (pat repl : List Char) : Nat → List Char → List Char
  | _, [] => []
  | skip + 1, _ :: rest => replaceGo pat repl skip rest
  | 0, c :: rest =>
    if pat.isPrefixOf (c :: rest) then
      repl ++ replaceGo pat repl (pat.length - 1) rest
    else
      c :: replaceGo pat repl 0 rest

/-- Python `s.replace(pat, repl)` (for a non-empty pattern, which is the only
use in the source). -/
def pyReplace (s pat repl : String) : String :=
  if pat.data = [] then s else String.mk (replaceGo pat.data repl.data 0 s.data)

/-- Split at the first occurrence of `sep`: `some (before, after)` when
present (Python `s.split(sep, 1)` with one separator hit). -/
def breakAt (sep : Char) : List Char → Option (List Char × List Char)
  | [] => none
  | c :: rest =>
    if c = sep then some ([], rest)
    else (breakAt sep rest).map (fun p => (c :: p.1, p.2))

/-- Digit character of `n % 10`. -/
def natDigitChar (n : Nat) : Char := Char.ofNat (48 + n % 10)

/-- Decimal digits, most significant first, with enough fuel
(`natDigits` always supplies enough). -/
def natDigitsAux : Nat → Nat → List Char
  | 0, n => [natDigitChar n]
  | fuel + 1, n =>
    if n < 10 then [natDigitChar n]
    else natDigitsAux fuel (n / 10) ++ [natDigitChar n]

/-- Decimal digits of a natural number, most significant first. -/
def natDigits (n : Nat) : List Char := natDigitsAux n n

/-- Decimal rendering of an integer (Python `str` of an `int`, as emitted by
`json.dumps` for our scaled-decimal numbers). -/
def intDigits (i : Int) : List Char :=
  if i < 0 then '-' :: natDigits i.natAbs else natDigits i.natAbs

/-- ASCII digit test (`'0'` is 48, `'9'` is 57). -/
def isDigitCh (c : Char) : Bool := 48 ≤ c.toNat && c.toNat ≤ 57

/-- Value of an ASCII digit. -/
def digitVal (c : Char) : Nat := c.toNat - 48

/-- Fold a digit string into a natural number. -/
def digitsToNat (cs : List Char) : Nat := cs.foldl (fun acc c => 10 * acc + digitVal c) 0

/-- Python `int(str)` digit-run validity after the optional sign: non-empty
digits, with single underscores allowed between digits only. -/
def pyIntDigitsOk : List Char → Bool
  | [] => false
  | c :: rest => isDigitCh c && pyIntDigitsRest rest
where
  /-- After at least one digit. -/
  pyIntDigitsRest : List Char → Bool
  | [] => true
  | '_' :: d :: rest => isDigitCh d && pyIntDigitsRest rest
  | '_' :: [] => false
  | c :: rest => isDigitCh c && pyIntDigitsRest rest

/-- Python `int(str)`: strip whitespace, optional sign, digits (with
underscore grouping); `none` models the `ValueError`. -/
def pyInt (s : String) : Option Int :=
  let cs := stripLR s.data
  let (sign, ds) : Int × List Char :=
    match cs with
    | '+' :: rest => (1, rest)
    | '-' :: rest => (-1, rest)
    | _ => (1, cs)
  if pyIntDigitsOk ds then
    some (sign * (digitsToNat (ds.filter (· ≠ '_')) : Int))
  else
    none

/-! ## JSON values

Python's `json.loads` (with its default non-strict number handling) yields
`None`, `bool`, `int`/`float`, `str`, `list`, `dict`, and also the
non-standard constants `nan`, `inf`, `-inf`.  Finite numbers are modelled
as exact scaled decimals `m * 10 ^ e`. -/

inductive Json where
  | null : Json
  | bool (b : Bool) : Json
  | num (m : Int) (e : Int) : Json
  | str (s : String) : Json
  | nan : Json
  | inf (neg : Bool) : Json
  | arr (items : List Json) : Json
  | obj (fields : List (String × Json)) : Json

/-- Python `dict.get`: value of the first (unique, for well-formed dicts)
binding of `k`. -/
def lookupField : List (String × Json) → String → Option Json
  | [], _ => none
  | (k', v) :: rest, k => if k' = k then some v else lookupField rest k

/-- Python `d[k] = v`: update in place when present, else append
(insertion order preserved, as in a CPython dict). -/
def setField : List (String × Json) → String → Json → List (String × Json)
  | [], k, v => [(k, v)]
  | (k', v') :: rest, k, v =>
    if k' = k then (k', v) :: rest else (k', v') :: setField rest k v

mutual

/-- Well-formedness: every object has pairwise-distinct keys (true of any
dict produced by `json.loads`). -/
def jsonWF : Json → Bool
  | .null => true
  | .bool _ => true
  | .num _ _ => true
  | .str _ => true
  | .nan => true
  | .inf _ => true
  | .arr items => jsonListWF items
  | .obj fields => decide ((fields.map Prod.fst).Nodup) && jsonFieldsWF fields

/-- All members well-formed. -/
def jsonListWF : List Json → Bool
  | [] => true
  | x :: rest => jsonWF x && jsonListWF rest

/-- All field values well-formed. -/
def jsonFieldsWF : List (String × Json) → Bool
  | [] => true
  | (_, v) :: rest => jsonWF v && jsonFieldsWF rest

end

mutual

/-- Does the value contain a `NaN` anywhere? -/
def hasNaN : Json → Bool
  | .nan => true
  | .arr items => hasNaNList items
  | .obj fields => hasNaNFields fields
  | _ => false

/-- `hasNaN` over a list of members. -/
def hasNaNList : List Json → Bool
  | [] => false
  | x :: rest => hasNaN x || hasNaNList rest

/-- `hasNaN` over field values. -/
def hasNaNFields : List (String × Json) → Bool
  | [] => false
  | (_, v) :: rest => hasNaN v || hasNaNFields rest

end

/-! ## The pretty printer: `json.dumps(payload, indent=2, ensure_ascii=False)` -/

/-- Lowercase hex digit, as in Python's `'\u%04x' % n`. -/
def hexDigitChar (n : Nat) : Char :=
  if n < 10 then Char.ofNat (48 + n) else Char.ofNat (87 + n)

/-- Python `json` string escaping with `ensure_ascii=False`: backslash,
double quote and control characters are escaped (`\b \f \n \r \t`
shortcuts, `\u00XX` otherwise); everything else is emitted raw. -/
def escapeChar (c : Char) : List Char :=
  if c = '\\' then ['\\', '\\']
  else if c = '"' then ['\\', '"']
  else if c = '\x08' then ['\\', 'b']
  else if c = '\x0c' then ['\\', 'f']
  else if c = '\n' then ['\\', 'n']
  else if c = '\x0d' then ['\\', 'r']
  else if c = '\t' then ['\\', 't']
  else if c.toNat < 32 then
    ['\\', 'u', '0', '0', hexDigitChar (c.toNat / 16), hexDigitChar (c.toNat % 16)]
  else [c]

/-- Escape a whole string body. -/
def escapeString : List Char → List Char
  | [] => []
  | c :: rest => escapeChar c ++ escapeString rest

/-- A double-quoted JSON string literal. -/
def printQString (s : String) : List Char :=
  '"' :: escapeString s.data ++ ['"']

/-- Render a scaled decimal `m * 10 ^ e`: plain integer digits when
`e = 0`, exponent notation otherwise (a value-faithful stand-in for
Python's shortest-round-trip `repr` of a float). -/
def printNum (m e : Int) : List Char :=
  if e = 0 then intDigits m else intDigits m ++ 'e' :: intDigits e

/-- `indent=2`: two spaces per nesting level. -/
def indentChars (n : Nat) : List Char := List.replicate (2 * n) ' '

mutual

/-- `json.dumps(v, indent=2, ensure_ascii=False)` at nesting level `ind`. -/
def printValue (ind : Nat) : Json → List Char
  | .null => ['n', 'u', 'l', 'l']
  | .bool b => if b then ['t', 'r', 'u', 'e'] else ['f', 'a', 'l', 's', 'e']
  | .num m e => printNum m e
  | .str s => printQString s
  | .nan => ['N', 'a', 'N']
  | .inf neg => if neg then '-' :: ['I', 'n', 'f', 'i', 'n', 'i', 't', 'y']
                else ['I', 'n', 'f', 'i', 'n', 'i', 't', 'y']
  | .arr [] => ['[', ']']
  | .arr (x :: rest) =>
    '[' :: '\n' :: indentChars (ind + 1) ++ printValue (ind + 1) x
      ++ printItems (ind + 1) rest ++ '\n' :: indentChars ind ++ [']']
  | .obj [] => ['{', '}']
  | .obj ((k, v) :: rest) =>
    '{' :: '\n' :: indentChars (ind + 1) ++ printQString k ++ ':' :: ' ' ::
      printValue (ind + 1) v ++ printFields (ind + 1) rest
      ++ '\n' :: indentChars ind ++ ['}']

/-- Subsequent array items, each preceded by `",\n" ++ indent`. -/
def printItems (ind : Nat) : List Json → List Char
  | [] => []
  | x :: rest =>
    ',' :: '\n' :: indentChars ind ++ printValue ind x ++ printItems ind rest

/-- Subsequent object fields, each preceded by `",\n" ++ indent`. -/
def printFields (ind : Nat) : List (String × Json) → List Char
  | [] => []
  | (k, v) :: rest =>
    ',' :: '\n' :: indentChars ind ++ printQString k ++ ':' :: ' ' ::
      printValue ind v ++ printFields ind rest

end

/-- The pretty-printed JSON text handed to the outbound message. -/
def dumpsPretty (v : Json) : String := String.mk (printValue 0 v)

/-! ## The JSON parser: `json.loads` -/

/-- JSON whitespace skipped by the scanner: space, tab, newline, return. -/
def isJsonWs (c : Char) : Bool := c = ' ' || c = '\t' || c = '\n' || c = '\x0d'

/-- Skip leading JSON whitespace. -/
def skipWs : List Char → List Char
  | [] => []
  | c :: rest => if isJsonWs c then skipWs rest else c :: rest

/-- Hex digit value (both cases), as accepted in a `\uXXXX` escape. -/
def hexVal (c : Char) : Option Nat :=
  if '0' ≤ c && c ≤ '9' then some (c.toNat - 48)
  else if 'a' ≤ c && c ≤ 'f' then some (c.toNat - 87)
  else if 'A' ≤ c && c ≤ 'F' then some (c.toNat - 55)
  else none

/-- Two-character escape shortcuts of the JSON grammar. -/
def escMap (e : Char) : Option Char :=
  if e = '"' then some '"'
  else if e = '\\' then some '\\'
  else if e = '/' then some '/'
  else if e = 'b' then some '\x08'
  else if e = 'f' then some '\x0c'
  else if e = 'n' then some '\n'
  else if e = 'r' then some '\x0d'
  else if e = 't' then some '\t'
  else none

/-- Four hex digits combined, when all are valid. -/
def hex4 (h1 h2 h3 h4 : Char) : Option Nat :=
  match hexVal h1, hexVal h2, hexVal h3, hexVal h4 with
  | some a, some b, some c, some d => some (((a * 16 + b) * 16 + c) * 16 + d)
  | _, _, _, _ => none

mutual

/-- Parse a string body after the opening quote, strict mode: raw control
characters are rejected; `\uXXXX` escapes are decoded, with valid surrogate
pairs combined (a lone surrogate, which Lean's `Char` cannot carry, is
rejected). -/
def parseStringBody : List Char → Option (List Char × List Char)
  | [] => none
  | c :: rest =>
    if c = '"' then some ([], rest)
    else if c = '\\' then parseEscapeSeq rest
    else if c.toNat < 32 then none
    else (parseStringBody rest).map (fun p => (c :: p.1, p.2))

/-- After a backslash: a `\uXXXX` escape or a shortcut. -/
def parseEscapeSeq : List Char → Option (List Char × List Char)
  | [] => none
  | e :: rest2 =>
    if e = 'u' then parseUEscape rest2
    else
      match escMap e with
      | some ec => (parseStringBody rest2).map (fun p => (ec :: p.1, p.2))
      | none => none

/-- After `\u`: four hex digits; a high surrogate must pair, a lone low
surrogate is rejected. -/
def parseUEscape : List Char → Option (List Char × List Char)
  | h1 :: h2 :: h3 :: h4 :: rest3 =>
    match hex4 h1 h2 h3 h4 with
    | none => none
    | some v =>
      if 0xD800 ≤ v ∧ v ≤ 0xDBFF then parseLowSurrogate v rest3
      else if 0xDC00 ≤ v ∧ v ≤ 0xDFFF then none
      else (parseStringBody rest3).map (fun p => (Char.ofNat v :: p.1, p.2))
  | _ => none

/-- The `\uXXXX` low half of a surrogate pair, combined with the high
half `v`. -/
def parseLowSurrogate (v : Nat) : List Char → Option (List Char × List Char)
  | b2 :: u2 :: g1 :: g2 :: g3 :: g4 :: rest4 =>
    if b2 = '\\' ∧ u2 = 'u' then
      match hex4 g1 g2 g3 g4 with
      | none => none
      | some w =>
        if 0xDC00 ≤ w ∧ w ≤ 0xDFFF then
          (parseStringBody rest4).map
            (fun p => (Char.ofNat (0x10000 + (v - 0xD800) * 0x400 + (w - 0xDC00)) :: p.1, p.2))
        else none
    else none
  | _ => none

end

/-- Take a maximal run of ASCII digits. -/
def takeDigits : List Char → List Char × List Char
  | [] => ([], [])
  | c :: rest =>
    if isDigitCh c then
      let p := takeDigits rest
      (c :: p.1, p.2)
    else ([], c :: rest)

/-- The integer part of a JSON number: `0` alone, or a nonzero digit
followed by more digits (leading zeros refused, as in the `json` module's
number regex). -/
def parseUIntPart : List Char → Option (Nat × List Char)
  | [] => none
  | c :: rest =>
    if c = '0' then some (0, rest)
    else if isDigitCh c then
      let p := takeDigits rest
      some (digitsToNat (c :: p.1), p.2)
    else none

/-- A signed non-empty digit run after the `e`: `(0, whole)` when the
digits are missing (the regex then matches no exponent at all). -/
def expDigits (ds whole : List Char) (sign : Int) : Int × List Char :=
  match takeDigits ds with
  | ([], _) => (0, whole)
  | (digits, r) => (sign * (digitsToNat digits : Int), r)

/-- The optional exponent `([eE][-+]?\d+)?`: returns `(0, input)` unchanged
when the exponent does not match (the regex simply does not include it). -/
def parseExp (cs : List Char) : Int × List Char :=
  match cs with
  | [] => (0, [])
  | c :: rest =>
    if c = 'e' ∨ c = 'E' then
      match rest with
      | [] => (0, cs)
      | d :: rest2 =>
        if d = '+' then expDigits rest2 cs 1
        else if d = '-' then expDigits rest2 cs (-1)
        else expDigits rest cs 1
    else (0, cs)

/-- The optional fraction `(\.\d+)?`: `(value, digit count, rest)`, leaving
the input unchanged when the fraction does not match. -/
def parseFrac (cs : List Char) : Nat × Nat × List Char :=
  match cs with
  | [] => (0, 0, [])
  | c :: rest =>
    if c = '.' then
      match takeDigits rest with
      | ([], _) => (0, 0, cs)
      | (ds, r) => (digitsToNat ds, ds.length, r)
    else (0, 0, cs)

/-- A JSON number, as matched by the `json` module's `NUMBER_RE`, combined
into a scaled decimal: `int . frac e exp` becomes
`(sign * (int * 10 ^ |frac| + frac)) * 10 ^ (exp - |frac|)`. -/
def parseNumber (cs : List Char) : Option (Json × List Char) :=
  match parseUIntPart ((match cs with
      | [] => ((1 : Int), ([] : List Char))
      | c :: rest => if c = '-' then (-1, rest) else (1, c :: rest)).2) with
  | none => none
  | some (ip, r1) =>
    some (.num ((match cs with
        | [] => ((1 : Int), ([] : List Char))
        | c :: rest => if c = '-' then (-1, rest) else (1, c :: rest)).1 *
          ((ip * 10 ^ (parseFrac r1).2.1 + (parseFrac r1).1 : Nat) : Int))
      ((parseExp (parseFrac r1).2.2).1 - ((parseFrac r1).2.1 : Int)),
      (parseExp (parseFrac r1).2.2).2)

mutual

/-- One JSON value: skip whitespace and dispatch on the first character,
as `json.scanner` does (strings, containers, the literals, then `NaN` /
`Infinity` / `-Infinity`, then the number regex). -/
def parseValue : Nat → List Char → Option (Json × List Char)
  | 0, _ => none
  | fuel + 1, cs =>
    match skipWs cs with
    | [] => none
    | c :: rest =>
      if c = '"' then (parseStringBody rest).map (fun p => (.str (String.mk p.1), p.2))
      else if c = '{' then
        (if (skipWs rest).head? = some '}' then some (.obj [], (skipWs rest).tail)
         else parseObj fuel (skipWs rest) [])
      else if c = '[' then
        (if (skipWs rest).head? = some ']' then some (.arr [], (skipWs rest).tail)
         else parseArr fuel (skipWs rest) [])
      else if c = 't' then
        (if ['r', 'u', 'e'].isPrefixOf rest then some (.bool true, rest.drop 3) else none)
      else if c = 'f' then
        (if ['a', 'l', 's', 'e'].isPrefixOf rest then some (.bool false, rest.drop 4) else none)
      else if c = 'n' then
        (if ['u', 'l', 'l'].isPrefixOf rest then some (.null, rest.drop 3) else none)
      else if c = 'N' then
        (if ['a', 'N'].isPrefixOf rest then some (.nan, rest.drop 2) else none)
      else if c = 'I' then
        (if ['n', 'f', 'i', 'n', 'i', 't', 'y'].isPrefixOf rest then
          some (.inf false, rest.drop 7)
        else none)
      else if c = '-' ∧ rest.head? = some 'I' then
        (if ['n', 'f', 'i', 'n', 'i', 't', 'y'].isPrefixOf (rest.drop 1) then
          some (.inf true, rest.drop 8)
        else none)
      else parseNumber (c :: rest)

/-- Object fields from the start of a key (whitespace already skipped),
accumulating with `setField` (duplicate keys: last wins, first position
kept, as in a CPython dict). -/
def parseObj : Nat → List Char → List (String × Json) → Option (Json × List Char)
  | 0, _, _ => none
  | fuel + 1, cs, acc =>
    match cs with
    | [] => none
    | c0 :: rest =>
      if c0 = '"' then
        match parseStringBody rest with
        | none => none
        | some (k, r1) =>
          match skipWs r1 with
          | ':' :: r2 =>
            match parseValue fuel r2 with
            | none => none
            | some (v, r3) =>
              match skipWs r3 with
              | ',' :: r4 => parseObj fuel (skipWs r4) (setField acc (String.mk k) v)
              | '}' :: r4 => some (.obj (setField acc (String.mk k) v), r4)
              | _ => none
          | _ => none
      else none

/-- Array items from the start of an item (whitespace already skipped). -/
def parseArr : Nat → List Char → List Json → Option (Json × List Char)
  | 0, _, _ => none
  | fuel + 1, cs, acc =>
    match parseValue fuel cs with
    | none => none
    | some (v, r1) =>
      match skipWs r1 with
      | ',' :: r2 => parseArr fuel (skipWs r2) (acc ++ [v])
      | ']' :: r2 => some (.arr (acc ++ [v]), r2)
      | _ => none

end

/-- `json.loads`: parse one value and require only whitespace after it
("Extra data" otherwise). -/
def parseJson (s : String) : Option Json :=
  match parseValue (s.length + 1) s.data with
  | some (v, rest) => if skipWs rest = [] then some v else none
  | none => none

/-! Fuel measures for the parser (used only in proofs about it). -/

mutual

/-- Sufficient `parseValue` fuel for a value. -/
def jfuel : Json → Nat
  | .arr (x :: xs) => 1 + arrFuel (x :: xs)
  | .obj (kv :: kvs) => 1 + objFuel (kv :: kvs)
  | _ => 1

/-- Sufficient `parseArr` fuel for the remaining items. -/
def arrFuel : List Json → Nat
  | [] => 0
  | x :: xs => 1 + max (jfuel x) (arrFuel xs)

/-- Sufficient `parseObj` fuel for the remaining fields. -/
def objFuel : List (String × Json) → Nat
  | [] => 0
  | (_, v) :: kvs => 1 + max (jfuel v) (objFuel kvs)

end

/-- The input's head cannot continue a number token. -/
def numStop : List Char → Bool
  | [] => true
  | c :: _ => !isDigitCh c && c ≠ '.' && c ≠ 'e' && c ≠ 'E'

/-- The input's head is not a digit. -/
def notDigitHead : List Char → Bool
  | [] => true
  | c :: _ => !isDigitCh c

/-! ## UTF-8 (Python's strict `bytes.decode("utf-8")` / `str.encode`) -/

/-- Strict UTF-8 decoding: overlong forms, surrogates and values above
`0x10FFFF` are rejected, exactly as Python's strict codec does. -/
def utf8Decode : List Nat → Option (List Char)
  | [] => some []
  | b :: rest =>
    if b < 0x80 then (utf8Decode rest).map (Char.ofNat b :: ·)
    else if b < 0xC2 then none
    else if b < 0xE0 then
      match rest with
      | b2 :: rest2 =>
        if 0x80 ≤ b2 && b2 < 0xC0 then
          (utf8Decode rest2).map (Char.ofNat ((b - 0xC0) * 64 + (b2 - 0x80)) :: ·)
        else none
      | [] => none
    else if b < 0xF0 then
      match rest with
      | b2 :: b3 :: rest2 =>
        let lo2 := if b = 0xE0 then 0xA0 else 0x80
        let hi2 := if b = 0xED then 0x9F else 0xBF
        if lo2 ≤ b2 && b2 ≤ hi2 && 0x80 ≤ b3 && b3 < 0xC0 then
          (utf8Decode rest2).map
            (Char.ofNat (((b - 0xE0) * 64 + (b2 - 0x80)) * 64 + (b3 - 0x80)) :: ·)
        else none
      | _ => none
    else if b < 0xF5 then
      match rest with
      | b2 :: b3 :: b4 :: rest2 =>
        let lo2 := if b = 0xF0 then 0x90 else 0x80
        let hi2 := if b = 0xF4 then 0x8F else 0xBF
        if lo2 ≤ b2 && b2 ≤ hi2 && 0x80 ≤ b3 && b3 < 0xC0 && 0x80 ≤ b4 && b4 < 0xC0 then
          (utf8Decode rest2).map
            (Char.ofNat ((((b - 0xF0) * 64 + (b2 - 0x80)) * 64 + (b3 - 0x80)) * 64 + (b4 - 0x80)) :: ·)
        else none
      | _ => none
    else none

/-- UTF-8 encoding of one scalar value. -/
def utf8EncodeChar (c : Char) : List Nat :=
  let n := c.toNat
  if n < 0x80 then [n]
  else if n < 0x800 then [0xC0 + n / 64, 0x80 + n % 64]
  else if n < 0x10000 then [0xE0 + n / 4096, 0x80 + n / 64 % 64, 0x80 + n % 64]
  else [0xF0 + n / 262144, 0x80 + n / 4096 % 64, 0x80 + n / 64 % 64, 0x80 + n % 64]

/-- Python `s.encode("utf-8")`. -/
def utf8Encode (s : String) : List Nat :=
  s.data.foldr (fun c acc => utf8EncodeChar c ++ acc) []

/-! ## `json_default`: the serializer fallback shared by both robots -/

/-- A `tzinfo`: absent (naive) or a fixed UTC offset in minutes. -/
inductive PyTZ where
  | naive : PyTZ
  | offset (minutes : Int) : PyTZ
deriving DecidableEq

/-- A `datetime.datetime`. -/
structure PyDateTime where
  year : Nat
  month : Nat
  day : Nat
  hour : Nat
  minute : Nat
  second : Nat
  microsecond : Nat
  tz : PyTZ
deriving DecidableEq

/-- A `datetime.date`. -/
structure PyDate where
  year : Nat
  month : Nat
  day : Nat
deriving DecidableEq

/-- The values `json_default` can receive: date/times, `Decimal` (carried
as its exact rational value; IEEE rounding of Python's `float()` is outside
the model), and anything else via its `str` text. -/
inductive PyVal where
  | dt (d : PyDateTime)
  | date (d : PyDate)
  | dec (q : ℚ)
  | other (text : String)

/-- What `json_default` returns: a string or a (floating-point) number. -/
inductive JsonDefaultOut where
  | str (s : String)
  | num (q : ℚ)
deriving DecidableEq

/-- Left-pad with zeros to width `w` (Python `%0wd`). -/
def pad (w n : Nat) : List Char :=
  List.replicate (w - (natDigits n).length) '0' ++ natDigits n

/-- `timedelta` offset rendering inside `datetime.isoformat`: `±HH:MM`. -/
def offsetChars (off : Int) : List Char :=
  (if off < 0 then '-' else '+') :: pad 2 (off.natAbs / 60) ++ ':' :: pad 2 (off.natAbs % 60)

/-- `datetime.isoformat()`: `YYYY-MM-DDTHH:MM:SS[.ffffff][±HH:MM]`
(microseconds omitted when zero, offset omitted when naive). -/
def isoformatDT (d : PyDateTime) : List Char :=
  pad 4 d.year ++ '-' :: pad 2 d.month ++ '-' :: pad 2 d.day ++
    'T' :: pad 2 d.hour ++ ':' :: pad 2 d.minute ++ ':' :: pad 2 d.second ++
    (if d.microsecond = 0 then [] else '.' :: pad 6 d.microsecond) ++
    (match d.tz with
     | .naive => []
     | .offset off => offsetChars off)

/-- `date.isoformat()`: `YYYY-MM-DD`. -/
def isoformatDate (d : PyDate) : List Char :=
  pad 4 d.year ++ '-' :: pad 2 d.month ++ '-' :: pad 2 d.day

/-- `json_default` (identical in `RobertaEmailer.py` and
`RobertaSender.py`): naive datetimes get `tzinfo=UTC` first; date/times
render as `isoformat()` with `"+00:00"` replaced by `"Z"`; `Decimal`
becomes a float; anything else becomes its `str` text. -/
def json_default : PyVal → JsonDefaultOut
  | .dt d =>
    let d' := if d.tz = PyTZ.naive then { d with tz := PyTZ.offset 0 } else d
    .str (pyReplace (String.mk (isoformatDT d')) "+00:00" "Z")
  | .date d => .str (pyReplace (String.mk (isoformatDate d)) "+00:00" "Z")
  | .dec q => .num q
  | .other r => .str r

/-! ## Configuration helpers -/

/-- `_parse_bool`: strip and lowercase; empty means the default; otherwise
membership in the truthy-literal set. -/
def _parse_bool (value : String) (dflt : Bool) : Bool :=
  let v := pyLower (pyStrip value)
  if v = "" then dflt
  else v = "1" || v = "true" || v = "yes" || v = "y" || v = "on"

/-- `_opt_str`: `None` stays `None`; a string strips to `None`-if-empty. -/
def _opt_str (value : Option String) : Option String :=
  match value with
  | none => none
  | some s => let t := pyStrip s; if t = "" then none else some t

/-- `_strip_optional_quotes`: strip whitespace, then remove one pair of
matching wrapping single or double quotes (length at least 2). -/
def _strip_optional_quotes (value : String) : String :=
  let v := stripLR value.data
  if 2 ≤ v.length ∧
      ((v.head? = some '"' ∧ v.getLast? = some '"') ∨
       (v.head? = some '\'' ∧ v.getLast? = some '\'')) then
    String.mk ((v.drop 1).dropLast)
  else String.mk v

/-- Split on newline characters (the blank-line and strip handling makes
the difference to Python's richer `splitlines` unobservable here). -/
def splitLines : List Char → List (List Char)
  | [] => [[]]
  | c :: rest =>
    if c = '\n' then [] :: splitLines rest
    else
      match splitLines rest with
      | [] => [[c]]
      | l :: ls => (c :: l) :: ls

/-- The `KEY=VALUE` step of `_parse_dotenv_file`'s loop (after the strip,
comment and `export ` handling): split at the first `=`; strip the key and
unquote the value; skip `=`-less lines and empty keys. -/
def parseKV (line2 : List Char) : Option (String × String) :=
  match breakAt '=' line2 with
  | none => none
  | some (k, v) =>
    let key := stripLR k
    if key = [] then none
    else some (String.mk key, _strip_optional_quotes (String.mk v))

/-- One line of `_parse_dotenv_file`: strip; skip blanks and `#` comments;
drop a (case-insensitive) leading `export ` token; then `parseKV`. -/
def _parse_dotenv_line (raw : List Char) : Option (String × String) :=
  let line := stripLR raw
  if line = [] then none
  else if line.head? = some '#' then none
  else
    let line2 :=
      if (pyLower (String.mk line)).data.take 7 = "export ".data then
        stripL (line.drop 7)
      else line
    parseKV line2

/-- Python `d[k] = v` on a string-valued dict. -/
def setStr : List (String × String) → String → String → List (String × String)
  | [], k, v => [(k, v)]
  | (k', v') :: rest, k, v =>
    if k' = k then (k', v) :: rest else (k', v') :: setStr rest k v

/-- `dict.get` / `os.getenv` on a string-valued dict. -/
def lookupStr : List (String × String) → String → Option String
  | [], _ => none
  | (k', v) :: rest, k => if k' = k then some v else lookupStr rest k

/-- `_parse_dotenv_file`: fold the parsed lines into a dict. -/
def _parse_dotenv_file (text : String) : List (String × String) :=
  (splitLines text.data).foldl
    (fun out raw =>
      match _parse_dotenv_line raw with
      | some (k, v) => setStr out k v
      | none => out)
    []

/-- `os.environ.setdefault`: keep an existing binding, else append. -/
def setdefaultEnv (env : List (String × String)) (k v : String) :
    List (String × String) :=
  if (lookupStr env k).isSome then env else env ++ [(k, v)]

/-- The fallback branch of `load_env_file`: every file-parsed pair is
`setdefault`-ed into the process environment. -/
def load_env_file_fallback (env : List (String × String)) (text : String) :
    List (String × String) :=
  (_parse_dotenv_file text).foldl (fun e kv => setdefaultEnv e kv.1 kv.2) env

/-! ## ServiceConfig and `build_config` -/

/-- `SmtpConfig` (the fixed `timeout_s = 30.0` carries no logic and is
omitted). -/
structure SmtpConfig where
  host : String
  port : Int
  user : Option String
  password : Option String
  starttls : Bool
  mail_from : String

/-- `AppConfig`. -/
structure AppConfig where
  smtp : SmtpConfig
  default_to : String
  default_subject : String
  allow_to_override : Bool
  max_body_bytes : Int

/-- The CLI namespace produced by `parse_args` (every flag defaults to the
empty string; `--allow-to-override` is `store_true`). -/
structure CliArgs where
  default_to : String
  subject : String
  allow_to_override : Bool
  max_body_bytes : String
  smtp_host : String
  smtp_port : String
  smtp_user : String
  smtp_pass : String
  smtp_starttls : String
  mail_from : String

/-- Python `a or b` on two strings (empty is falsy). -/
def pyOrSS (a b : String) : String := if a ≠ "" then a else b

/-- Python `a or b` where `a` is a string and `b` an `os.getenv` result. -/
def orO (a : String) (b : Option String) : Option String :=
  if a ≠ "" then some a else b

/-- Python `o or dflt` where `o` is an `os.getenv` result. -/
def orD (o : Option String) (dflt : String) : String :=
  match o with
  | some s => if s ≠ "" then s else dflt
  | none => dflt

/-- `build_config`: resolve every field as CLI value `or` environment
value `or` built-in default, then run the four startup validations
(`SystemExit` and the `int()` `ValueError` become `Except.error`). -/
def build_config (args : CliArgs) (env : List (String × String)) :
    Except String AppConfig :=
  let smtp_host := pyStrip (pyOrSS args.smtp_host (orD (lookupStr env "SMTP_HOST") ""))
  match pyInt (pyOrSS args.smtp_port (orD (lookupStr env "SMTP_PORT") "587")) with
  | none => .error "invalid literal for int(): SMTP_PORT"
  | some smtp_port =>
    let smtp_user := _opt_str (orO args.smtp_user (lookupStr env "SMTP_USER"))
    let smtp_pass := _opt_str (orO args.smtp_pass (lookupStr env "SMTP_PASS"))
    let smtp_starttls :=
      _parse_bool (pyOrSS args.smtp_starttls (orD (lookupStr env "SMTP_STARTTLS") "true")) true
    let mail_from :=
      pyStrip (pyOrSS args.mail_from
        (orD (lookupStr env "SMTP_FROM") (orD (lookupStr env "MAIL_FROM") "")))
    let default_to := pyStrip (pyOrSS args.default_to (orD (lookupStr env "DEFAULT_TO") ""))
    let default_subject :=
      pyOrSS
        (pyStrip (pyOrSS args.subject
          (orD (lookupStr env "DEFAULT_SUBJECT") "Robot B JSON Payload")))
        "Robot B JSON Payload"
    let allow_override := args.allow_to_override
    match pyInt (pyOrSS args.max_body_bytes (orD (lookupStr env "MAX_BODY_BYTES") "256000")) with
    | none => .error "invalid literal for int(): MAX_BODY_BYTES"
    | some max_body =>
      if smtp_host = "" then .error "SMTP_HOST must be set (env, .env, or CLI)."
      else if mail_from = "" then .error "SMTP_FROM/MAIL_FROM must be set (env, .env, or CLI)."
      else if default_to = "" ∧ ¬allow_override then
        .error "DEFAULT_TO must be set unless --allow-to-override is enabled."
      else if max_body ≤ 0 then .error "MAX_BODY_BYTES must be > 0."
      else .ok
        { smtp :=
            { host := smtp_host, port := smtp_port, user := smtp_user,
              password := smtp_pass, starttls := smtp_starttls, mail_from := mail_from }
          default_to := default_to
          default_subject := default_subject
          allow_to_override := allow_override
          max_body_bytes := max_body }

/-! ## The Mail Relay message and the ingest handler -/

/-- The outbound `EmailMessage` built by `EmailSender.send_json`. -/
structure EmailMsg where
  msgFrom : String
  msgTo : String
  subject : String
  content : String
  attachmentName : String
  attachmentBytes : List Nat
deriving DecidableEq

/-- The message `send_json` constructs before entering the critical
section: body and attachment both carry the pretty-printed payload. -/
def send_json_msg (cfg : SmtpConfig) (mail_to subject : String) (payload : Json) : EmailMsg :=
  let pretty := dumpsPretty payload
  { msgFrom := cfg.mail_from
    msgTo := mail_to
    subject := subject
    content := pretty
    attachmentName := "data.json"
    attachmentBytes := utf8Encode pretty }

/-- The part of `_read_json_body` after the length checks: decode the
read bytes as UTF-8, parse as JSON, require an object.  The texts standing
in for interpolated exception messages carry no logic. -/
def parseBodyBytes (raw : List Nat) : Except String (List (String × Json)) :=
  match utf8Decode raw with
  | none => .error "Invalid JSON: invalid utf-8"
  | some chars =>
    match parseJson (String.mk chars) with
    | none => .error "Invalid JSON: parse error"
    | some (.obj fields) => .ok fields
    | some _ => .error "JSON must be an object"

/-- `_read_json_body`: the Content-Length checks (all before the body is
read), the bounded read (`rfile.read(length)`), then `parseBodyBytes`. -/
def _read_json_body (maxBytes : Int) (lengthHeader : Option String) (body : List Nat) :
    Except String (List (String × Json)) :=
  match lengthHeader with
  | none => .error "Missing Content-Length"
  | some h =>
    if h = "" then .error "Missing Content-Length"
    else
      match pyInt h with
      | none => .error "Invalid Content-Length"
      | some length =>
        if length ≤ 0 then .error "Empty body"
        else if length > maxBytes then
          .error ("Body too large (max " ++ String.mk (intDigits maxBytes) ++ " bytes)")
        else
          parseBodyBytes (body.take length.toNat)

/-- One inbound HTTP request, as the handler sees it. -/
structure HttpRequest where
  rawPath : String
  contentLength : Option String
  body : List Nat

/-- `urlparse(path).path` for an HTTP request target: everything before
the query or fragment. -/
def urlparsePath (s : String) : String :=
  String.mk (s.data.takeWhile (fun c => !(c = '?' || c = '#')))

/-- The one JSON response `_json` writes: a status and the dict literal. -/
structure HttpResponse where
  status : Nat
  body : List (String × Json)

/-- What a `POST` dispatch did: the single response, and the arguments of
the `send_json` invocation when one was made. -/
structure PostResult where
  response : HttpResponse
  relayCall : Option (String × String × Json)

/-- Lines 208-212 of `do_POST`: `mail_to` starts at `cfg.default_to` and is
replaced by the request's trimmed `to` only when override is allowed and
the field is a string with truthy (non-empty) `strip()`. -/
def resolve_mail_to (cfg : AppConfig) (fields : List (String × Json)) : String :=
  if cfg.allow_to_override then
    match lookupField fields "to" with
    | some (.str s) => if pyStrip s ≠ "" then pyStrip s else cfg.default_to
    | _ => cfg.default_to
  else cfg.default_to

/-- Lines 214-217 of `do_POST`: `subject` starts at `cfg.default_subject`
and is replaced by the request's trimmed `subject` whenever that field is
a string with truthy `strip()` (no permission gate). -/
def resolve_subject (cfg : AppConfig) (fields : List (String × Json)) : String :=
  match lookupField fields "subject" with
  | some (.str s) => if pyStrip s ≠ "" then pyStrip s else cfg.default_subject
  | _ => cfg.default_subject

/-- `do_POST`: route, read and validate the body, resolve recipient and
subject, invoke the relay (`smtpFail` is the transport oracle: `some err`
models any exception raised inside `send_json`), and answer. -/
def do_POST (cfg : AppConfig) (smtpFail : Option String) (req : HttpRequest) : PostResult :=
  let path := urlparsePath req.rawPath
  if path ≠ "/ingest" then
    { response :=
        { status := 404
          body := [("ok", .bool false), ("error", .str "Not found"), ("path", .str path)] }
      relayCall := none }
  else
    match _read_json_body cfg.max_body_bytes req.contentLength req.body with
    | .error e =>
      { response := { status := 400, body := [("ok", .bool false), ("error", .str e)] }
        relayCall := none }
    | .ok fields =>
      let mail_to := resolve_mail_to cfg fields
      let subject := resolve_subject cfg fields
      match smtpFail with
      | some err =>
        { response :=
            { status := 500
              body := [("ok", .bool false), ("error", .str ("Email send failed: " ++ err))] }
          relayCall := some (mail_to, subject, .obj fields) }
      | none =>
        { response :=
            { status := 200
              body := [("ok", .bool true), ("sent_to", .str mail_to), ("subject", .str subject)] }
          relayCall := some (mail_to, subject, .obj fields) }

/-! ## The Mail Relay trace model (C9)

`send_json` holds one shared `threading.Lock` around the whole transport
session (`with self._lock, smtplib.SMTP(...)`).  A trace interleaves the
per-thread action sequences; `lockOk` is the lock's semantics. -/

/-- The observable actions of one `send_json` call. -/
inductive MailAction where
  | acquire : MailAction
  | opn : MailAction
  | ehlo : MailAction
  | upgrade : MailAction
  | login : MailAction
  | transmit : MailAction
  | close : MailAction
  | release : MailAction
deriving DecidableEq

/-- The sequence every `send_json` call performs, from the source: lock,
connect, greet, optional STARTTLS upgrade and re-greet, optional login,
send, close, unlock. -/
def sendProgram (starttls auth : Bool) : List MailAction :=
  [.acquire, .opn, .ehlo] ++ (if starttls then [.upgrade, .ehlo] else []) ++
    (if auth then [.login] else []) ++ [.transmit, .close, .release]

/-- Transport-session actions (everything between lock and unlock). -/
def isSessionAct : MailAction → Bool
  | .acquire => false
  | .release => false
  | _ => true

/-- The actions thread `t` performs, in trace order. -/
def threadEvents (t : Nat) (τ : List (Nat × MailAction)) : List MailAction :=
  (τ.filter (fun e => e.1 == t)).map Prod.snd

/-- `threading.Lock` semantics: `acquire` only when free, `release` only
by the holder. -/
def lockOk : Option Nat → List (Nat × MailAction) → Bool
  | _, [] => true
  | st, (t, a) :: rest =>
    match a, st with
    | .acquire, none => lockOk (some t) rest
    | .acquire, some _ => false
    | .release, some h => h == t && lockOk none rest
    | .release, none => false
    | _, _ => lockOk st rest

/-- The lock holder after a trace prefix. -/
def holderAfter : Option Nat → List (Nat × MailAction) → Option Nat
  | st, [] => st
  | _, (t, .acquire) :: rest => holderAfter (some t) rest
  | _, (_, .release) :: rest => holderAfter none rest
  | st, (_, _) :: rest => holderAfter st rest

/-! ## Shared sample fixtures for the closed witnesses -/

/-- A startup configuration (override permission as given). -/
def sampleCfg (allow : Bool) : AppConfig :=
  { smtp :=
      { host := "smtp.example.com", port := 587, user := none, password := none,
        starttls := true, mail_from := "noreply@example.com" }
    default_to := "ops@example.com"
    default_subject := "Report"
    allow_to_override := allow
    max_body_bytes := 256000 }

/-- An ingest request carrying the given JSON text (a generous declared
length reads the whole body). -/
def sampleReq (text : String) : HttpRequest :=
  { rawPath := "/ingest", contentLength := some "200", body := utf8Encode text }

/-- A minimal environment satisfying the startup validations. -/
def sampleEnv : List (String × String) :=
  [("SMTP_HOST", "smtp.example.com"), ("SMTP_FROM", "noreply@example.com"),
    ("DEFAULT_TO", "ops@example.com")]

/-- CLI arguments with every flag at its `parse_args` default except the
subject. -/
def sampleArgs (subject : String) : CliArgs :=
  { default_to := "", subject := subject, allow_to_override := false, max_body_bytes := "",
    smtp_host := "", smtp_port := "", smtp_user := "", smtp_pass := "",
    smtp_starttls := "", mail_from := "" }

/-- The sample naive datetime of the C6 witness. -/
def dtSample : PyDateTime :=
  { year := 2024, month := 1, day := 2, hour := 3, minute := 4, second := 5,
    microsecond := 0, tz := PyTZ.naive }

/-- The configuration `build_config` produces from `sampleArgs "  "` and
`sampleEnv`. -/
def sampleBuiltCfg : AppConfig :=
  { smtp :=
      { host := "smtp.example.com", port := 587, user := none, password := none,
        starttls := true, mail_from := "noreply@example.com" }
    default_to := "ops@example.com"
    default_subject := "Robot B JSON Payload"
    allow_to_override := false
    max_body_bytes := 256000 }

/-! ## Theorems -/

/-! Decimal digit rendering: fuel irrelevance, value, head shape. -/

/-- `digitVal` inverts `natDigitChar`. -/
theorem digitVal_natDigitChar (n : Nat) : digitVal (natDigitChar n) = n % 10 := by
  have h : n % 10 < 10 := Nat.mod_lt _ (by omega)
  unfold natDigitChar digitVal
  interval_cases h' : n % 10 <;> decide

/-- `natDigitChar` produces an ASCII digit. -/
theorem isDigitCh_natDigitChar (n : Nat) : isDigitCh (natDigitChar n) = true := by
  unfold natDigitChar
  have h : n % 10 < 10 := Nat.mod_lt _ (by omega)
  interval_cases h' : n % 10 <;> decide

/-- Every character of `natDigitsAux` is a digit. -/
theorem mem_natDigitsAux_digit :
    ∀ fuel n c, c ∈ natDigitsAux fuel n → isDigitCh c = true := by
  intro fuel
  induction fuel with
  | zero =>
    intro n c hc
    simp only [natDigitsAux, List.mem_singleton] at hc
    subst hc
    exact isDigitCh_natDigitChar n
  | succ f ih =>
    intro n c hc
    unfold natDigitsAux at hc
    by_cases h : n < 10
    · rw [if_pos h] at hc
      simp only [List.mem_singleton] at hc
      subst hc
      exact isDigitCh_natDigitChar n
    · rw [if_neg h] at hc
      rcases List.mem_append.mp hc with h1 | h1
      · exact ih _ _ h1
      · simp only [List.mem_singleton] at h1
        subst h1
        exact isDigitCh_natDigitChar n

/-- Every character of `natDigits` is a digit. -/
theorem mem_natDigits_digit (n : Nat) (c : Char) (h : c ∈ natDigits n) : isDigitCh c = true :=
  mem_natDigitsAux_digit n n c h

/-- `natDigitChar` is nonzero off the zero residue. -/
theorem natDigitChar_ne_zero (n : Nat) (h : n % 10 ≠ 0) : natDigitChar n ≠ '0' := by
  have hlt : n % 10 < 10 := Nat.mod_lt _ (by omega)
  unfold natDigitChar
  interval_cases h' : n % 10 <;> first | (exact absurd rfl h) | decide

/-- With enough fuel the digit rendering does not depend on the fuel. -/
theorem natDigitsAux_congr :
    ∀ f g n, n < 10 ^ (f + 1) → n < 10 ^ (g + 1) → natDigitsAux f n = natDigitsAux g n := by
  intro f
  induction f with
  | zero =>
    intro g n hf _
    have hn : n < 10 := by simpa using hf
    cases g with
    | zero => rfl
    | succ g' => simp [natDigitsAux, hn]
  | succ f' ih =>
    intro g n hf hg
    by_cases hn : n < 10
    · cases g with
      | zero => simp [natDigitsAux, hn]
      | succ g' => simp [natDigitsAux, hn]
    · have h10 : (10 : Nat) ≤ n := by omega
      cases g with
      | zero =>
        exfalso
        have : n < 10 := by simpa using hg
        omega
      | succ g' =>
        have hdf : n / 10 < 10 ^ (f' + 1) := by
          rw [Nat.div_lt_iff_lt_mul (by omega)]
          calc n < 10 ^ (f' + 1 + 1) := hf
          _ = 10 ^ (f' + 1) * 10 := by ring
        have hdg : n / 10 < 10 ^ (g' + 1) := by
          rw [Nat.div_lt_iff_lt_mul (by omega)]
          calc n < 10 ^ (g' + 1 + 1) := hg
          _ = 10 ^ (g' + 1) * 10 := by ring
        simp only [natDigitsAux, if_neg hn]
        rw [ih g' (n / 10) hdf hdg]

/-- Every natural is below `10 ^ (n + 1)`. -/
theorem lt_ten_pow_succ (n : Nat) : n < 10 ^ (n + 1) := by
  calc n < 2 ^ n := Nat.lt_two_pow n
  _ ≤ 10 ^ n := Nat.pow_le_pow_left (by omega) n
  _ < 10 ^ (n + 1) := Nat.pow_lt_pow_right (by omega) (by omega)

/-- `natDigits` at any sufficient fuel. -/
theorem natDigits_eq_aux (f n : Nat) (hf : n < 10 ^ (f + 1)) :
    natDigits n = natDigitsAux f n :=
  natDigitsAux_congr n f n (lt_ten_pow_succ n) hf

/-- `digitsToNat` over a trailing digit. -/
theorem digitsToNat_concat (xs : List Char) (c : Char) :
    digitsToNat (xs ++ [c]) = 10 * digitsToNat xs + digitVal c := by
  unfold digitsToNat
  rw [List.foldl_append]
  rfl

/-- `digitsToNat` inverts the digit rendering. -/
theorem digitsToNat_natDigitsAux :
    ∀ f n, n < 10 ^ (f + 1) → digitsToNat (natDigitsAux f n) = n := by
  intro f
  induction f with
  | zero =>
    intro n hf
    have hn : n < 10 := by simpa using hf
    show digitsToNat [natDigitChar n] = n
    unfold digitsToNat
    simp [List.foldl_cons, digitVal_natDigitChar]
    omega
  | succ f' ih =>
    intro n hf
    by_cases hn : n < 10
    · simp only [natDigitsAux, if_pos hn]
      unfold digitsToNat
      simp [List.foldl_cons, digitVal_natDigitChar]
      omega
    · have hdf : n / 10 < 10 ^ (f' + 1) := by
        rw [Nat.div_lt_iff_lt_mul (by omega)]
        calc n < 10 ^ (f' + 1 + 1) := hf
        _ = 10 ^ (f' + 1) * 10 := by ring
      simp only [natDigitsAux, if_neg hn]
      rw [digitsToNat_concat, ih _ hdf, digitVal_natDigitChar]
      omega

/-- `digitsToNat` inverts `natDigits`. -/
theorem digitsToNat_natDigits (n : Nat) : digitsToNat (natDigits n) = n :=
  digitsToNat_natDigitsAux n n (lt_ten_pow_succ n)

/-- Head shape of a nonzero number's digits: a nonzero digit. -/
theorem natDigitsAux_head :
    ∀ f n, n < 10 ^ (f + 1) → n ≠ 0 →
      ∃ c t, natDigitsAux f n = c :: t ∧ isDigitCh c = true ∧ c ≠ '0' := by
  intro f
  induction f with
  | zero =>
    intro n hf hn
    have h10 : n < 10 := by simpa using hf
    refine ⟨natDigitChar n, [], rfl, isDigitCh_natDigitChar n, ?_⟩
    exact natDigitChar_ne_zero n (by omega)
  | succ f' ih =>
    intro n hf hn
    by_cases h10 : n < 10
    · refine ⟨natDigitChar n, [], by simp [natDigitsAux, h10], isDigitCh_natDigitChar n, ?_⟩
      exact natDigitChar_ne_zero n (by omega)
    · have hdf : n / 10 < 10 ^ (f' + 1) := by
        rw [Nat.div_lt_iff_lt_mul (by omega)]
        calc n < 10 ^ (f' + 1 + 1) := hf
        _ = 10 ^ (f' + 1) * 10 := by ring
      have hd0 : n / 10 ≠ 0 := by
        intro h
        have := Nat.div_eq_zero_iff (by omega : 0 < 10) |>.mp h
        omega
      obtain ⟨c, t, hct, hdig, hne⟩ := ih (n / 10) hdf hd0
      exact ⟨c, t ++ [natDigitChar n], by simp [natDigitsAux, h10, hct], hdig, hne⟩

/-- Head shape of `natDigits` for nonzero `n`. -/
theorem natDigits_head (n : Nat) (hn : n ≠ 0) :
    ∃ c t, natDigits n = c :: t ∧ isDigitCh c = true ∧ c ≠ '0' :=
  natDigitsAux_head n n (lt_ten_pow_succ n) hn

/-- `natDigits` is never empty. -/
theorem natDigits_ne_nil (n : Nat) : natDigits n ≠ [] := by
  by_cases hn : n = 0
  · subst hn
    decide
  · obtain ⟨c, t, hct, _, _⟩ := natDigits_head n hn
    rw [hct]
    exact List.cons_ne_nil c t

/-! Number-token round trip. -/

/-- `takeDigits` consumes exactly a digit run ended by a non-digit. -/
theorem takeDigits_append (ds rest : List Char)
    (hds : ∀ c ∈ ds, isDigitCh c = true) (hrest : notDigitHead rest = true) :
    takeDigits (ds ++ rest) = (ds, rest) := by
  induction ds with
  | nil =>
    cases rest with
    | nil => rfl
    | cons c t =>
      have hc : isDigitCh c = false := by
        simpa [notDigitHead] using hrest
      simp [takeDigits, hc]
  | cons c ds' ih =>
    have hc : isDigitCh c = true := hds c (List.mem_cons_self _ _)
    have hds' : ∀ x ∈ ds', isDigitCh x = true := fun x hx => hds x (List.mem_cons_of_mem _ hx)
    simp [takeDigits, hc, ih hds']

/-- `parseUIntPart` consumes exactly the digits of `n`. -/
theorem parseUIntPart_natDigits (n : Nat) (rest : List Char)
    (hrest : notDigitHead rest = true) :
    parseUIntPart (natDigits n ++ rest) = some (n, rest) := by
  by_cases hn : n = 0
  · subst hn
    show parseUIntPart ('0' :: rest) = some (0, rest)
    simp [parseUIntPart]
  · obtain ⟨c, t, hct, hdig, hne⟩ := natDigits_head n hn
    have htd : ∀ x ∈ t, isDigitCh x = true := by
      intro x hx
      exact mem_natDigits_digit n x (by rw [hct]; exact List.mem_cons_of_mem _ hx)
    rw [hct]
    show (if c = '0' then some ((0 : Nat), t ++ rest)
      else if isDigitCh c = true then
        some (digitsToNat (c :: (takeDigits (t ++ rest)).1), (takeDigits (t ++ rest)).2)
      else none) = some (n, rest)
    rw [if_neg hne, if_pos hdig]
    rw [takeDigits_append t rest htd hrest]
    have : digitsToNat (c :: t) = n := by
      rw [← hct]
      exact digitsToNat_natDigits n
    simp [this]

/-- Unpacking `numStop`. -/
theorem numStop_facts (cs : List Char) (h : numStop cs = true) :
    notDigitHead cs = true ∧ cs.head? ≠ some '.' ∧ cs.head? ≠ some 'e' ∧ cs.head? ≠ some 'E' := by
  cases cs with
  | nil => refine ⟨rfl, by simp, by simp, by simp⟩
  | cons c t =>
    simp only [numStop, Bool.and_eq_true, Bool.not_eq_true', decide_eq_true_eq] at h
    obtain ⟨⟨⟨h1, h2⟩, h3⟩, h4⟩ := h
    refine ⟨by simp [notDigitHead, h1], by simp [h2], by simp [h3], by simp [h4]⟩

/-- A non-`'.'` head leaves `parseFrac` inert. -/
theorem parseFrac_stop (cs : List Char) (h : cs.head? ≠ some '.') :
    parseFrac cs = (0, 0, cs) := by
  cases cs with
  | nil => rfl
  | cons c t =>
    have hc : c ≠ '.' := by
      intro hEq
      exact h (by rw [hEq]; rfl)
    simp [parseFrac, hc]

/-- A head that is neither `'e'` nor `'E'` leaves `parseExp` inert. -/
theorem parseExp_stop (cs : List Char) (h : cs.head? ≠ some 'e') (h' : cs.head? ≠ some 'E') :
    parseExp cs = (0, cs) := by
  cases cs with
  | nil => rfl
  | cons c t =>
    have hc : ¬(c = 'e' ∨ c = 'E') := by
      rintro (rfl | rfl)
      · exact h rfl
      · exact h' rfl
    simp [parseExp, hc]

/-- A digit is not a sign. -/
theorem isDigitCh_ne_sign (c : Char) (h : isDigitCh c = true) : c ≠ '+' ∧ c ≠ '-' := by
  constructor <;> rintro rfl <;> exact absurd h (by decide)

/-- `expDigits` on a rendered natural consumes exactly its digits. -/
theorem expDigits_digits (k : Nat) (sign : Int) (whole rest : List Char)
    (hrest : notDigitHead rest = true) :
    expDigits (natDigits k ++ rest) whole sign = (sign * k, rest) := by
  obtain ⟨c, t, hct⟩ : ∃ c t, natDigits k = c :: t := by
    cases hnd : natDigits k with
    | nil => exact absurd hnd (natDigits_ne_nil _)
    | cons c t => exact ⟨c, t, rfl⟩
  have hv : digitsToNat (c :: t) = k := by
    rw [← hct]
    exact digitsToNat_natDigits k
  unfold expDigits
  rw [takeDigits_append _ _ (fun x hx => mem_natDigits_digit _ x hx) hrest, hct]
  simp [hv]

/-- `parseExp` consumes exactly `e` followed by a rendered integer. -/
theorem parseExp_e (k : Int) (rest : List Char) (hrest : notDigitHead rest = true) :
    parseExp ('e' :: (intDigits k ++ rest)) = (k, rest) := by
  by_cases hk : k < 0
  · have hint : intDigits k = '-' :: natDigits k.natAbs := by simp [intDigits, hk]
    rw [hint, List.cons_append]
    show expDigits (natDigits k.natAbs ++ rest)
      ('e' :: '-' :: (natDigits k.natAbs ++ rest)) (-1) = (k, rest)
    rw [expDigits_digits k.natAbs (-1) _ rest hrest]
    have : (-1 : Int) * k.natAbs = k := by omega
    rw [this]
  · have hint : intDigits k = natDigits k.natAbs := by simp [intDigits, hk]
    obtain ⟨c, t, hct⟩ : ∃ c t, natDigits k.natAbs = c :: t := by
      cases hnd : natDigits k.natAbs with
      | nil => exact absurd hnd (natDigits_ne_nil _)
      | cons c t => exact ⟨c, t, rfl⟩
    have hcdig : isDigitCh c = true :=
      mem_natDigits_digit _ c (by rw [hct]; exact List.mem_cons_self _ _)
    obtain ⟨hcp, hcm⟩ := isDigitCh_ne_sign c hcdig
    rw [hint, hct, List.cons_append]
    show (if c = '+' then
        expDigits (t ++ rest) ('e' :: c :: (t ++ rest)) 1
      else if c = '-' then
        expDigits (t ++ rest) ('e' :: c :: (t ++ rest)) (-1)
      else
        expDigits (c :: (t ++ rest)) ('e' :: c :: (t ++ rest)) 1) = (k, rest)
    rw [if_neg hcp, if_neg hcm]
    rw [show c :: (t ++ rest) = natDigits k.natAbs ++ rest by rw [hct, List.cons_append]]
    rw [expDigits_digits k.natAbs 1 _ rest hrest]
    have : (1 : Int) * k.natAbs = k := by omega
    rw [this]

/-- `parseNumber` on rendered integer digits followed by an inert tail. -/
theorem parseNumber_intDigits (m ee : Int) (T rest' : List Char)
    (hT : notDigitHead T = true)
    (hfrac : parseFrac T = (0, 0, T))
    (hexp : parseExp T = (ee, rest')) :
    parseNumber (intDigits m ++ T) = some (.num m ee, rest') := by
  by_cases hm : m < 0
  · rw [show intDigits m = '-' :: natDigits m.natAbs from by simp [intDigits, hm],
      List.cons_append]
    have h1 : parseUIntPart (natDigits m.natAbs ++ T) = some (m.natAbs, T) :=
      parseUIntPart_natDigits _ _ hT
    show (match parseUIntPart (natDigits m.natAbs ++ T) with
      | none => none
      | some (ip, r1) =>
        some (Json.num ((-1 : Int) * ((ip * 10 ^ (parseFrac r1).2.1 + (parseFrac r1).1 : Nat) : Int))
            ((parseExp (parseFrac r1).2.2).1 - ((parseFrac r1).2.1 : Int)),
          (parseExp (parseFrac r1).2.2).2)) = some (.num m ee, rest')
    rw [h1]
    show some (Json.num ((-1 : Int) * ((m.natAbs * 10 ^ (parseFrac T).2.1 + (parseFrac T).1 : Nat) : Int))
        ((parseExp (parseFrac T).2.2).1 - ((parseFrac T).2.1 : Int)),
      (parseExp (parseFrac T).2.2).2) = some (.num m ee, rest')
    rw [hfrac]
    show some (Json.num ((-1 : Int) * ((m.natAbs * 10 ^ 0 + 0 : Nat) : Int))
        ((parseExp T).1 - ((0 : Nat) : Int)), (parseExp T).2) = some (.num m ee, rest')
    rw [hexp]
    have hv : (-1 : Int) * ((m.natAbs * 10 ^ 0 + 0 : Nat) : Int) = m := by
      simp only [pow_zero, mul_one, Nat.add_zero]
      omega
    rw [hv]
    simp
  · rw [show intDigits m = natDigits m.natAbs from by simp [intDigits, hm]]
    have h1 : parseUIntPart (natDigits m.natAbs ++ T) = some (m.natAbs, T) :=
      parseUIntPart_natDigits _ _ hT
    obtain ⟨c, t, hct⟩ : ∃ c t, natDigits m.natAbs = c :: t := by
      cases hnd' : natDigits m.natAbs with
      | nil => exact absurd hnd' (natDigits_ne_nil _)
      | cons c t => exact ⟨c, t, rfl⟩
    have hcdig : isDigitCh c = true :=
      mem_natDigits_digit _ c (by rw [hct]; exact List.mem_cons_self _ _)
    have hcm : c ≠ '-' := (isDigitCh_ne_sign c hcdig).2
    rw [hct, List.cons_append] at h1 ⊢
    show (match parseUIntPart ((if c = '-' then ((-1 : Int), t ++ T) else (1, c :: (t ++ T))).2) with
      | none => none
      | some (ip, r1) =>
        some (Json.num ((if c = '-' then ((-1 : Int), t ++ T) else (1, c :: (t ++ T))).1 *
              ((ip * 10 ^ (parseFrac r1).2.1 + (parseFrac r1).1 : Nat) : Int))
            ((parseExp (parseFrac r1).2.2).1 - ((parseFrac r1).2.1 : Int)),
          (parseExp (parseFrac r1).2.2).2)) = some (.num m ee, rest')
    rw [if_neg hcm, h1]
    show some (Json.num ((1 : Int) * ((m.natAbs * 10 ^ (parseFrac T).2.1 + (parseFrac T).1 : Nat) : Int))
        ((parseExp (parseFrac T).2.2).1 - ((parseFrac T).2.1 : Int)),
      (parseExp (parseFrac T).2.2).2) = some (.num m ee, rest')
    rw [hfrac]
    show some (Json.num ((1 : Int) * ((m.natAbs * 10 ^ 0 + 0 : Nat) : Int))
        ((parseExp T).1 - ((0 : Nat) : Int)), (parseExp T).2) = some (.num m ee, rest')
    rw [hexp]
    have hv : (1 : Int) * ((m.natAbs * 10 ^ 0 + 0 : Nat) : Int) = m := by
      simp only [pow_zero, mul_one, Nat.add_zero]
      omega
    rw [hv]
    simp

/-! String escape round trip. -/

/-- `hexVal` inverts `hexDigitChar` below 16. -/
theorem hexVal_hexDigitChar : ∀ x < 16, hexVal (hexDigitChar x) = some x := by decide

/-- Parsing one escaped (or raw) character prepends it. -/
theorem parse_escapeChar (c : Char) (tail : List Char) :
    parseStringBody (escapeChar c ++ tail) =
      (parseStringBody tail).map (fun p => (c :: p.1, p.2)) := by
  unfold escapeChar
  split_ifs with h1 h2 h3 h4 h5 h6 h7 h8
  · subst h1; rfl
  · subst h2; rfl
  · subst h3; rfl
  · subst h4; rfl
  · subst h5; rfl
  · subst h6; rfl
  · subst h7; rfl
  · -- `\u00XX` for another control character
    have hdiv : c.toNat / 16 < 16 := by omega
    have hmod : c.toNat % 16 < 16 := by omega
    have hx : hex4 '0' '0' (hexDigitChar (c.toNat / 16)) (hexDigitChar (c.toNat % 16)) =
        some c.toNat := by
      unfold hex4
      rw [hexVal_hexDigitChar _ hdiv, hexVal_hexDigitChar _ hmod]
      show some (((0 * 16 + 0) * 16 + c.toNat / 16) * 16 + c.toNat % 16) = some c.toNat
      congr 1
      omega
    show parseUEscape ('0' :: '0' :: hexDigitChar (c.toNat / 16) ::
      hexDigitChar (c.toNat % 16) :: tail) = (parseStringBody tail).map (fun p => (c :: p.1, p.2))
    show (match hex4 '0' '0' (hexDigitChar (c.toNat / 16)) (hexDigitChar (c.toNat % 16)) with
      | none => none
      | some v =>
        if 0xD800 ≤ v ∧ v ≤ 0xDBFF then parseLowSurrogate v tail
        else if 0xDC00 ≤ v ∧ v ≤ 0xDFFF then none
        else (parseStringBody tail).map (fun p => (Char.ofNat v :: p.1, p.2))) =
      (parseStringBody tail).map (fun p => (c :: p.1, p.2))
    rw [hx]
    show (if 0xD800 ≤ c.toNat ∧ c.toNat ≤ 0xDBFF then parseLowSurrogate c.toNat tail
      else if 0xDC00 ≤ c.toNat ∧ c.toNat ≤ 0xDFFF then none
      else (parseStringBody tail).map (fun p => (Char.ofNat c.toNat :: p.1, p.2))) =
      (parseStringBody tail).map (fun p => (c :: p.1, p.2))
    rw [if_neg (by omega), if_neg (by omega), Char.ofNat_toNat]
  · -- raw character (printable, not quote or backslash)
    show parseStringBody (c :: tail) = (parseStringBody tail).map (fun p => (c :: p.1, p.2))
    rw [parseStringBody]
    rw [if_neg h2, if_neg h1, if_neg h8]

/-- Parsing an escaped string body up to its closing quote. -/
theorem parse_escapeString (s : List Char) (rest : List Char) :
    parseStringBody (escapeString s ++ '"' :: rest) = some (s, rest) := by
  induction s with
  | nil => rfl
  | cons c s' ih =>
    show parseStringBody (escapeChar c ++ escapeString s' ++ '"' :: rest) = some (c :: s', rest)
    rw [List.append_assoc, parse_escapeChar, ih]
    rfl

/-- `parseNumber` inverts `printNum` in front of a number-stopping rest. -/
theorem parseNumber_printNum (m e : Int) (rest : List Char) (hrest : numStop rest = true) :
    parseNumber (printNum m e ++ rest) = some (.num m e, rest) := by
  obtain ⟨hnd, hdot, he1, he2⟩ := numStop_facts rest hrest
  by_cases hee : e = 0
  · subst hee
    rw [show printNum m 0 = intDigits m from by simp [printNum]]
    exact parseNumber_intDigits m 0 rest rest hnd (parseFrac_stop rest hdot)
      (parseExp_stop rest he1 he2)
  · rw [show printNum m e = intDigits m ++ 'e' :: intDigits e from by simp [printNum, hee]]
    rw [List.append_assoc, List.cons_append]
    exact parseNumber_intDigits m e ('e' :: (intDigits e ++ rest)) rest rfl
      (parseFrac_stop _ (by simp)) (parseExp_e e rest hnd)

/-- On the accepted path, `do_POST` hands the relay exactly the resolved
recipient, the resolved subject, and the full parsed object. -/
theorem do_POST_relay_args (cfg : AppConfig) (smtpFail : Option String) (req : HttpRequest)
    (fields : List (String × Json))
    (hparse : _read_json_body cfg.max_body_bytes req.contentLength req.body = .ok fields)
    (hpath : urlparsePath req.rawPath = "/ingest") :
    (do_POST cfg smtpFail req).relayCall =
      some (resolve_mail_to cfg fields, resolve_subject cfg fields, Json.obj fields) := by
  unfold do_POST
  simp only [hpath, hparse]
  cases smtpFail <;> simp

/-- C1: for every POST /ingest request whose body parses to a JSON object,
the recipient handed to the relay defaults to the configured recipient; it
equals the trimmed `to` value exactly when override is permitted and the
`to` field is a string with non-empty trim; with override off the `to`
field is never consulted (the recipient is the default for every payload). -/
theorem C1_recipient_resolution (cfg : AppConfig) (smtpFail : Option String)
    (req : HttpRequest) (fields : List (String × Json))
    (hparse : _read_json_body cfg.max_body_bytes req.contentLength req.body = .ok fields)
    (hpath : urlparsePath req.rawPath = "/ingest") :
    (do_POST cfg smtpFail req).relayCall =
      some (resolve_mail_to cfg fields, resolve_subject cfg fields, Json.obj fields) ∧
    (cfg.allow_to_override = true →
      ∀ s, lookupField fields "to" = some (Json.str s) → pyStrip s ≠ "" →
        resolve_mail_to cfg fields = pyStrip s) ∧
    ((¬ ∃ s, lookupField fields "to" = some (Json.str s) ∧ pyStrip s ≠ "") →
      resolve_mail_to cfg fields = cfg.default_to) ∧
    (cfg.allow_to_override = false →
      ∀ fs : List (String × Json), resolve_mail_to cfg fs = cfg.default_to) := by
  refine ⟨do_POST_relay_args cfg smtpFail req fields hparse hpath, ?_, ?_, ?_⟩
  · intro hov s hl hs
    simp [resolve_mail_to, hov, hl, hs]
  · intro hno
    unfold resolve_mail_to
    by_cases hov : cfg.allow_to_override = true
    · simp only [hov, if_true]
      cases hl : lookupField fields "to" with
      | none => simp
      | some j =>
        cases j with
        | str s =>
          by_cases hs : pyStrip s = ""
          · simp [hs]
          · exact absurd ⟨s, hl, hs⟩ hno
        | null => simp
        | bool b => simp
        | num m e => simp
        | nan => simp
        | inf neg => simp
        | arr items => simp
        | obj fs => simp
    · simp [hov]
  · intro hov fs
    simp [resolve_mail_to, hov]

/-- Closed witness for C1 at a concrete accepted request. -/
theorem C1_recipient_resolution_witness :
    (do_POST (sampleCfg true) none (sampleReq "\x7b\"to\": \"  x@y.com  \", \"a\": 1\x7d")).relayCall =
      some (resolve_mail_to (sampleCfg true) [("to", Json.str "  x@y.com  "), ("a", Json.num 1 0)],
            resolve_subject (sampleCfg true) [("to", Json.str "  x@y.com  "), ("a", Json.num 1 0)],
            Json.obj [("to", Json.str "  x@y.com  "), ("a", Json.num 1 0)]) ∧
    ((sampleCfg true).allow_to_override = true →
      ∀ s, lookupField [("to", Json.str "  x@y.com  "), ("a", Json.num 1 0)] "to" =
          some (Json.str s) → pyStrip s ≠ "" →
        resolve_mail_to (sampleCfg true) [("to", Json.str "  x@y.com  "), ("a", Json.num 1 0)] =
          pyStrip s) ∧
    ((¬ ∃ s, lookupField [("to", Json.str "  x@y.com  "), ("a", Json.num 1 0)] "to" =
          some (Json.str s) ∧ pyStrip s ≠ "") →
      resolve_mail_to (sampleCfg true) [("to", Json.str "  x@y.com  "), ("a", Json.num 1 0)] =
        (sampleCfg true).default_to) ∧
    ((sampleCfg true).allow_to_override = false →
      ∀ fs : List (String × Json), resolve_mail_to (sampleCfg true) fs = (sampleCfg true).default_to) :=
  C1_recipient_resolution (sampleCfg true) none (sampleReq "\x7b\"to\": \"  x@y.com  \", \"a\": 1\x7d")
    [("to", Json.str "  x@y.com  "), ("a", Json.num 1 0)] (by rfl) (by rfl)

/-- C2: the subject handed to the relay equals the trimmed `subject` field
whenever that field is a string with non-empty trim, and the configured
default subject otherwise, with no dependence on the override-permission
flag. -/
theorem C2_subject_resolution (cfg : AppConfig) (smtpFail : Option String)
    (req : HttpRequest) (fields : List (String × Json))
    (hparse : _read_json_body cfg.max_body_bytes req.contentLength req.body = .ok fields)
    (hpath : urlparsePath req.rawPath = "/ingest") :
    (do_POST cfg smtpFail req).relayCall =
      some (resolve_mail_to cfg fields, resolve_subject cfg fields, Json.obj fields) ∧
    (∀ s, lookupField fields "subject" = some (Json.str s) → pyStrip s ≠ "" →
      resolve_subject cfg fields = pyStrip s) ∧
    ((¬ ∃ s, lookupField fields "subject" = some (Json.str s) ∧ pyStrip s ≠ "") →
      resolve_subject cfg fields = cfg.default_subject) ∧
    (∀ b : Bool,
      resolve_subject { cfg with allow_to_override := b } fields = resolve_subject cfg fields) := by
  refine ⟨do_POST_relay_args cfg smtpFail req fields hparse hpath, ?_, ?_, ?_⟩
  · intro s hl hs
    simp [resolve_subject, hl, hs]
  · intro hno
    unfold resolve_subject
    cases hl : lookupField fields "subject" with
    | none => simp
    | some j =>
      cases j with
      | str s =>
        by_cases hs : pyStrip s = ""
        · simp [hs]
        · exact absurd ⟨s, hl, hs⟩ hno
      | null => simp
      | bool b => simp
      | num m e => simp
      | nan => simp
      | inf neg => simp
      | arr items => simp
      | obj fs => simp
  · intro b
    simp [resolve_subject]

/-- Closed witness for C2: override disallowed, yet the subject is taken
from the payload. -/
theorem C2_subject_resolution_witness :
    (do_POST (sampleCfg false) none (sampleReq "\x7b\"subject\": \" Hi \", \"a\": 1\x7d")).relayCall =
      some (resolve_mail_to (sampleCfg false) [("subject", Json.str " Hi "), ("a", Json.num 1 0)],
            resolve_subject (sampleCfg false) [("subject", Json.str " Hi "), ("a", Json.num 1 0)],
            Json.obj [("subject", Json.str " Hi "), ("a", Json.num 1 0)]) ∧
    (∀ s, lookupField [("subject", Json.str " Hi "), ("a", Json.num 1 0)] "subject" =
        some (Json.str s) → pyStrip s ≠ "" →
      resolve_subject (sampleCfg false) [("subject", Json.str " Hi "), ("a", Json.num 1 0)] =
        pyStrip s) ∧
    ((¬ ∃ s, lookupField [("subject", Json.str " Hi "), ("a", Json.num 1 0)] "subject" =
        some (Json.str s) ∧ pyStrip s ≠ "") →
      resolve_subject (sampleCfg false) [("subject", Json.str " Hi "), ("a", Json.num 1 0)] =
        (sampleCfg false).default_subject) ∧
    (∀ b : Bool,
      resolve_subject { sampleCfg false with allow_to_override := b }
          [("subject", Json.str " Hi "), ("a", Json.num 1 0)] =
        resolve_subject (sampleCfg false) [("subject", Json.str " Hi "), ("a", Json.num 1 0)]) :=
  C2_subject_resolution (sampleCfg false) none (sampleReq "\x7b\"subject\": \" Hi \", \"a\": 1\x7d")
    [("subject", Json.str " Hi "), ("a", Json.num 1 0)] (by rfl) (by rfl)

/-- C7 counterexample: the claim says a value outside the truthy set
yields the caller-supplied default, so `_parse_bool "no" (default := true)`
would have to be `true`; the code returns `false`. -/
theorem C7_parse_bool_counterexample : ¬ (_parse_bool "no" true = true) := by decide

/-- C7 (amended): parsing is case-insensitive on the trimmed value; a
member of the truthy set yields true, an empty (or whitespace-only) value
yields the caller-supplied default, and any other non-empty value yields
false - not the default. -/
theorem C7_parse_bool_amended (s : String) (d : Bool) :
    ((pyLower (pyStrip s) = "1" ∨ pyLower (pyStrip s) = "true" ∨ pyLower (pyStrip s) = "yes" ∨
        pyLower (pyStrip s) = "y" ∨ pyLower (pyStrip s) = "on") → _parse_bool s d = true) ∧
    (pyLower (pyStrip s) = "" → _parse_bool s d = d) ∧
    (pyLower (pyStrip s) ≠ "" →
      ¬ (pyLower (pyStrip s) = "1" ∨ pyLower (pyStrip s) = "true" ∨ pyLower (pyStrip s) = "yes" ∨
          pyLower (pyStrip s) = "y" ∨ pyLower (pyStrip s) = "on") →
      _parse_bool s d = false) := by
  refine ⟨?_, ?_, ?_⟩
  · intro h
    have hne : pyLower (pyStrip s) ≠ "" := by
      rcases h with h | h | h | h | h <;> simp [h]
    rcases h with h | h | h | h | h <;> simp [_parse_bool, h, hne]
  · intro h
    simp [_parse_bool, h]
  · intro hne hno
    push_neg at hno
    obtain ⟨h1, h2, h3, h4, h5⟩ := hno
    simp [_parse_bool, hne, h1, h2, h3, h4, h5]

/-- Closed witness for the amended C7: a truthy literal with surrounding
blanks and mixed case parses to true against a false default. -/
theorem C7_parse_bool_amended_witness : _parse_bool " ON " false = true :=
  (C7_parse_bool_amended " ON " false).1 (by decide)

/-- `a or b` is truthy when `b` is. -/
theorem pyOrSS_ne (a b : String) (hb : b ≠ "") : pyOrSS a b ≠ "" := by
  unfold pyOrSS
  split
  next h => exact h
  next h => exact hb

/-- `"" or b` is `b`. -/
theorem pyOrSS_empty_left (b : String) : pyOrSS "" b = b := by simp [pyOrSS]

/-- A truthy `a` wins in `a or b`. -/
theorem pyOrSS_of_ne (a b : String) (ha : a ≠ "") : pyOrSS a b = a := by
  simp [pyOrSS, ha]

/-- C10: whenever `build_config` succeeds, a CLI/environment default
subject that is absent or whitespace-only leaves the built-in literal, and
the configured default subject is never empty. -/
theorem C10_default_subject_nonempty (args : CliArgs) (env : List (String × String))
    (cfg : AppConfig) (h : build_config args env = .ok cfg) :
    cfg.default_subject ≠ "" ∧
    (pyStrip (pyOrSS args.subject (orD (lookupStr env "DEFAULT_SUBJECT") "")) = "" →
      cfg.default_subject = "Robot B JSON Payload") := by
  have hsubj : cfg.default_subject =
      pyOrSS
        (pyStrip (pyOrSS args.subject
          (orD (lookupStr env "DEFAULT_SUBJECT") "Robot B JSON Payload")))
        "Robot B JSON Payload" := by
    simp only [build_config] at h
    split at h
    · exact absurd h (by simp)
    split at h
    · exact absurd h (by simp)
    split at h
    · exact absurd h (by simp)
    split at h
    · exact absurd h (by simp)
    split at h
    · exact absurd h (by simp)
    split at h
    · exact absurd h (by simp)
    injection h with h'
    subst h'
    rfl
  refine ⟨?_, ?_⟩
  · rw [hsubj]
    exact pyOrSS_ne _ _ (by decide)
  · intro hraw
    rw [hsubj]
    by_cases ha : args.subject = ""
    · rw [ha, pyOrSS_empty_left] at hraw
      rw [ha, pyOrSS_empty_left]
      cases hl : lookupStr env "DEFAULT_SUBJECT" with
      | none => rfl
      | some s =>
        by_cases hs : s = ""
        · subst hs
          rfl
        · rw [hl] at hraw
          rw [show orD (some s) "" = s from by simp [orD, hs]] at hraw
          rw [show orD (some s) "Robot B JSON Payload" = s from by simp [orD, hs]]
          rw [hraw, pyOrSS_empty_left]
    · rw [pyOrSS_of_ne _ _ ha] at hraw
      rw [pyOrSS_of_ne _ _ ha, hraw, pyOrSS_empty_left]

/-- Closed witness for C10: a whitespace-only `--subject` flag with no
environment value falls back to the built-in subject. -/
theorem C10_default_subject_nonempty_witness :
    sampleBuiltCfg.default_subject ≠ "" ∧
      (pyStrip (pyOrSS (sampleArgs "  ").subject
          (orD (lookupStr sampleEnv "DEFAULT_SUBJECT") "")) = "" →
        sampleBuiltCfg.default_subject = "Robot B JSON Payload") :=
  C10_default_subject_nonempty (sampleArgs "  ") sampleEnv sampleBuiltCfg (by rfl)

/-- C4: the Content-Length gate of `_read_json_body`.  The four checks
(present, integer, positive, within the ceiling) are each stated for an
arbitrary request body, so a failing check never depends on (reads) the
body; a declared length equal to the ceiling proceeds to the bounded body
read, and one over the ceiling is answered with 400 by `do_POST`. -/
theorem C4_content_length_gate (maxBytes : Int) (hdr : Option String) (body : List Nat) :
    ((hdr = none ∨ hdr = some "") →
      _read_json_body maxBytes hdr body = .error "Missing Content-Length") ∧
    (∀ h, hdr = some h → h ≠ "" → pyInt h = none →
      _read_json_body maxBytes hdr body = .error "Invalid Content-Length") ∧
    (∀ h n, hdr = some h → pyInt h = some n → n ≤ 0 →
      _read_json_body maxBytes hdr body = .error "Empty body") ∧
    (∀ h n, hdr = some h → pyInt h = some n → 0 < n → maxBytes < n →
      _read_json_body maxBytes hdr body =
        .error ("Body too large (max " ++ String.mk (intDigits maxBytes) ++ " bytes)")) ∧
    (∀ h, hdr = some h → pyInt h = some maxBytes → 0 < maxBytes →
      _read_json_body maxBytes hdr body = parseBodyBytes (body.take maxBytes.toNat)) ∧
    (∀ (cfg : AppConfig) (smtpFail : Option String) (req : HttpRequest) (h : String),
      urlparsePath req.rawPath = "/ingest" → req.contentLength = some h →
      pyInt h = some (cfg.max_body_bytes + 1) →
      (do_POST cfg smtpFail req).response.status = 400) := by
  refine ⟨?_, ?_, ?_, ?_, ?_, ?_⟩
  · rintro (rfl | rfl)
    · rfl
    · rfl
  · rintro h rfl hne hpi
    simp [_read_json_body, hne, hpi]
  · rintro h n rfl hpi hle
    have hne : h ≠ "" := by
      rintro rfl
      rw [show pyInt "" = none from rfl] at hpi
      exact Option.noConfusion hpi
    simp [_read_json_body, hne, hpi, hle]
  · rintro h n rfl hpi hpos hover
    have hne : h ≠ "" := by
      rintro rfl
      rw [show pyInt "" = none from rfl] at hpi
      exact Option.noConfusion hpi
    simp only [_read_json_body, if_neg hne, hpi]
    rw [if_neg (show ¬ n ≤ 0 by omega), if_pos (show n > maxBytes from hover)]
  · rintro h rfl hpi hpos
    have hne : h ≠ "" := by
      rintro rfl
      rw [show pyInt "" = none from rfl] at hpi
      exact Option.noConfusion hpi
    simp [_read_json_body, hne, hpi]
    omega
  · intro cfg smtpFail req h hpath hcl hpi
    have hne : h ≠ "" := by
      rintro rfl
      rw [show pyInt "" = none from rfl] at hpi
      exact Option.noConfusion hpi
    have hbody : ∃ e, _read_json_body cfg.max_body_bytes req.contentLength req.body = .error e := by
      rw [hcl]
      by_cases hle : cfg.max_body_bytes + 1 ≤ 0
      · exact ⟨"Empty body", by simp [_read_json_body, hne, hpi, hle]⟩
      · refine ⟨"Body too large (max " ++ String.mk (intDigits cfg.max_body_bytes) ++ " bytes)", ?_⟩
        simp [_read_json_body, hne, hpi, hle]
    obtain ⟨e, he⟩ := hbody
    unfold do_POST
    simp [hpath, he]

/-- Closed witness for C4: a declared length one over a ceiling of 10 is
rejected before the (empty) body plays any part. -/
theorem C4_content_length_gate_witness :
    _read_json_body 10 (some "11") [] = .error "Body too large (max 10 bytes)" :=
  (C4_content_length_gate 10 (some "11") []).2.2.2.1 "11" 11 rfl (by rfl) (by decide) (by decide)

/-- C3: every `POST` dispatch produces exactly one response (`do_POST` is
a function into single responses): 404 echoing the parsed path off
`/ingest` with no relay call; 400 carrying the first failing check's
message (drawn from the closed list of validation errors) with no relay
call; 500 prefixed "Email send failed" when the relay raises; 200 with
the resolved recipient and subject on success. -/
theorem C3_response_mapping (cfg : AppConfig) (smtpFail : Option String) (req : HttpRequest) :
    (urlparsePath req.rawPath ≠ "/ingest" →
      (do_POST cfg smtpFail req).response =
        { status := 404
          body := [("ok", .bool false), ("error", .str "Not found"),
                   ("path", .str (urlparsePath req.rawPath))] } ∧
      (do_POST cfg smtpFail req).relayCall = none) ∧
    (∀ e, urlparsePath req.rawPath = "/ingest" →
      _read_json_body cfg.max_body_bytes req.contentLength req.body = .error e →
      (do_POST cfg smtpFail req).response =
        { status := 400, body := [("ok", .bool false), ("error", .str e)] } ∧
      (do_POST cfg smtpFail req).relayCall = none) ∧
    (∀ e, _read_json_body cfg.max_body_bytes req.contentLength req.body = .error e →
      e = "Missing Content-Length" ∨ e = "Invalid Content-Length" ∨ e = "Empty body" ∨
      e = "Body too large (max " ++ String.mk (intDigits cfg.max_body_bytes) ++ " bytes)" ∨
      e = "Invalid JSON: invalid utf-8" ∨ e = "Invalid JSON: parse error" ∨
      e = "JSON must be an object") ∧
    (∀ fields err, urlparsePath req.rawPath = "/ingest" →
      _read_json_body cfg.max_body_bytes req.contentLength req.body = .ok fields →
      smtpFail = some err →
      (do_POST cfg smtpFail req).response =
        { status := 500
          body := [("ok", .bool false), ("error", .str ("Email send failed: " ++ err))] }) ∧
    (∀ fields, urlparsePath req.rawPath = "/ingest" →
      _read_json_body cfg.max_body_bytes req.contentLength req.body = .ok fields →
      smtpFail = none →
      (do_POST cfg smtpFail req).response =
        { status := 200
          body := [("ok", .bool true), ("sent_to", .str (resolve_mail_to cfg fields)),
                   ("subject", .str (resolve_subject cfg fields))] }) := by
  refine ⟨?_, ?_, ?_, ?_, ?_⟩
  · intro hpath
    unfold do_POST
    simp [hpath]
  · intro e hpath he
    unfold do_POST
    simp [hpath, he]
  · intro e he
    unfold _read_json_body at he
    split at he
    · exact Or.inl (by injection he with h'; exact h'.symm)
    · split at he
      · exact Or.inl (by injection he with h'; exact h'.symm)
      · split at he
        · exact Or.inr (Or.inl (by injection he with h'; exact h'.symm))
        · split at he
          · exact Or.inr (Or.inr (Or.inl (by injection he with h'; exact h'.symm)))
          · split at he
            · exact Or.inr (Or.inr (Or.inr (Or.inl (by injection he with h'; exact h'.symm))))
            · unfold parseBodyBytes at he
              split at he
              · exact Or.inr (Or.inr (Or.inr (Or.inr (Or.inl
                  (by injection he with h'; exact h'.symm)))))
              · split at he
                · exact Or.inr (Or.inr (Or.inr (Or.inr (Or.inr (Or.inl
                    (by injection he with h'; exact h'.symm))))))
                · exact Except.noConfusion he
                · exact Or.inr (Or.inr (Or.inr (Or.inr (Or.inr (Or.inr
                    (by injection he with h'; exact h'.symm))))))
  · intro fields err hpath hok hfail
    unfold do_POST
    simp [hpath, hok, hfail]
  · intro fields hpath hok hfail
    unfold do_POST
    simp [hpath, hok, hfail]

/-- Closed witness for C3: a JSON array body is answered 400 with the
object-shape message and no relay call. -/
theorem C3_response_mapping_witness :
    (do_POST (sampleCfg false) none (sampleReq "[1, 2, 3]")).response =
      { status := 400, body := [("ok", Json.bool false), ("error", Json.str "JSON must be an object")] } ∧
    (do_POST (sampleCfg false) none (sampleReq "[1, 2, 3]")).relayCall = none :=
  (C3_response_mapping (sampleCfg false) none (sampleReq "[1, 2, 3]")).2.1
    "JSON must be an object" (by rfl) (by rfl)

/-- First binding wins: `lookupStr` over an append. -/
theorem lookupStr_append (a b : List (String × String)) (k : String) :
    lookupStr (a ++ b) k =
      match lookupStr a k with
      | some v => some v
      | none => lookupStr b k := by
  induction a with
  | nil => rfl
  | cons kv rest ih =>
    obtain ⟨k', v'⟩ := kv
    by_cases h : k' = k
    · simp [lookupStr, h]
    · simp [lookupStr, h, ih]

/-- Folding `setdefaultEnv` over any pair list: an existing binding always
wins, a missing one takes the list's first value for the key. -/
theorem setdefault_foldl (ps : List (String × String)) (env : List (String × String)) (k : String) :
    lookupStr (ps.foldl (fun e kv => setdefaultEnv e kv.1 kv.2) env) k =
      match lookupStr env k with
      | some v => some v
      | none => lookupStr ps k := by
  induction ps generalizing env with
  | nil =>
    cases h : lookupStr env k <;> simp [lookupStr, h]
  | cons kv rest ih =>
    obtain ⟨k', v'⟩ := kv
    simp only [List.foldl_cons]
    rw [ih]
    unfold setdefaultEnv
    by_cases hk : (lookupStr env k').isSome
    · rw [if_pos hk]
      by_cases he : k' = k
      · subst he
        obtain ⟨v, hv⟩ := Option.isSome_iff_exists.mp hk
        simp [lookupStr, hv]
      · simp [lookupStr, Ne.symm he, he]
    · rw [if_neg hk]
      rw [lookupStr_append]
      by_cases he : k' = k
      · subst he
        have hv : lookupStr env k' = none := by
          cases h : lookupStr env k' with
          | none => rfl
          | some v => rw [h] at hk; simp at hk
        simp [lookupStr, hv]
      · cases h : lookupStr env k with
        | none => simp [h, lookupStr, Ne.symm he, he]
        | some v => simp [h, lookupStr, Ne.symm he, he]

/-- `breakAt` finds the first separator. -/
theorem breakAt_first (k v : List Char) (hk : '=' ∉ k) :
    breakAt '=' (k ++ '=' :: v) = some (k, v) := by
  induction k with
  | nil => simp [breakAt]
  | cons c rest ih =>
    have hc : c ≠ '=' := fun h => hk (h ▸ List.mem_cons_self c rest)
    have hrest : '=' ∉ rest := fun h => hk (List.mem_cons_of_mem c h)
    simp [breakAt, hc, ih hrest]

/-- Stripping does nothing when both ends are non-whitespace. -/
theorem stripLR_of_ends (c d : Char) (l : List Char)
    (hc : isPySpace c = false) (hd : isPySpace d = false) :
    stripLR (c :: l ++ [d]) = c :: l ++ [d] := by
  have h1 : List.dropWhile isPySpace (c :: l ++ [d]) = c :: l ++ [d] := by
    simp [List.dropWhile_cons, hc]
  have h2 : List.dropWhile isPySpace ((c :: l ++ [d]).reverse) = (c :: l ++ [d]).reverse := by
    rw [show (c :: l ++ [d]).reverse = d :: (c :: l).reverse by simp]
    simp [List.dropWhile_cons, hd]
  show (List.dropWhile isPySpace
    (List.dropWhile isPySpace (c :: l ++ [d])).reverse).reverse = c :: l ++ [d]
  rw [h1, h2]
  simp

/-- C8: dotenv parsing and environment seeding.  Blank and `#` lines are
skipped; a leading `export ` token is dropped; remaining lines split at
the first `=` into a stripped key and an unquoted value; one pair of
matching wrapping quotes is removed; and the parsed pairs reach the
process environment only at keys not already bound, so an explicit
environment variable always beats a file value. -/
theorem C8_dotenv_semantics (raw : List Char) (text : String) (env : List (String × String)) :
    (stripLR raw = [] → _parse_dotenv_line raw = none) ∧
    (∀ t, stripLR raw = '#' :: t → _parse_dotenv_line raw = none) ∧
    (∀ r, stripLR raw = 'e' :: 'x' :: 'p' :: 'o' :: 'r' :: 't' :: ' ' :: r →
      _parse_dotenv_line raw = parseKV (stripL r)) ∧
    (∀ k v : List Char, '=' ∉ k →
      parseKV (k ++ '=' :: v) =
        (if stripLR k = [] then none
         else some (String.mk (stripLR k), _strip_optional_quotes (String.mk v)))) ∧
    (∀ (q : Char) (s : List Char), q = '"' ∨ q = '\'' →
      _strip_optional_quotes (String.mk (q :: s ++ [q])) = String.mk s) ∧
    (∀ k, lookupStr (load_env_file_fallback env text) k =
      match lookupStr env k with
      | some v => some v
      | none => lookupStr (_parse_dotenv_file text) k) := by
  refine ⟨?_, ?_, ?_, ?_, ?_, ?_⟩
  · intro h
    simp [_parse_dotenv_line, h]
  · intro t h
    simp [_parse_dotenv_line, h]
  · intro r h
    simp only [_parse_dotenv_line]
    rw [h]
    have hlow : (pyLower (String.mk ('e' :: 'x' :: 'p' :: 'o' :: 'r' :: 't' :: ' ' :: r))).data.take 7 =
        "export ".data := by
      show (('e' :: 'x' :: 'p' :: 'o' :: 'r' :: 't' :: ' ' :: r).map Char.toLower).take 7 =
        "export ".data
      simp only [List.map_cons, List.take_succ_cons, List.take_zero]
      decide
    rw [if_neg (by simp), if_neg (by simp), if_pos hlow]
    rfl
  · intro k v hk
    unfold parseKV
    rw [breakAt_first k v hk]
  · have hlen : ∀ (q : Char) (s : List Char), 2 ≤ (q :: s ++ [q]).length := by
      intro q s
      have : (q :: s ++ [q]).length = s.length + 2 := by simp
      omega
    rintro q s (rfl | rfl)
    · simp only [_strip_optional_quotes]
      rw [show stripLR (String.mk ('"' :: s ++ ['"'])).data = '"' :: s ++ ['"'] from
        stripLR_of_ends _ _ _ (by decide) (by decide)]
      rw [if_pos ⟨hlen '"' s, Or.inl ⟨rfl, by
        show (('"' :: s) ++ ['"']).getLast? = some '"'
        exact List.getLast?_concat _⟩⟩]
      show String.mk ((s ++ ['"']).dropLast) = String.mk s
      rw [List.dropLast_concat]
    · simp only [_strip_optional_quotes]
      rw [show stripLR (String.mk ('\'' :: s ++ ['\''])).data = '\'' :: s ++ ['\''] from
        stripLR_of_ends _ _ _ (by decide) (by decide)]
      rw [if_pos ⟨hlen '\'' s, Or.inr ⟨rfl, by
        show (('\'' :: s) ++ ['\'']).getLast? = some '\''
        exact List.getLast?_concat _⟩⟩]
      show String.mk ((s ++ ['\'']).dropLast) = String.mk s
      rw [List.dropLast_concat]
  · intro k
    unfold load_env_file_fallback
    exact setdefault_foldl _ env k

/-- Closed witness for C8: an indented `export FOO=1` line reduces to the
`KEY=VALUE` step on `FOO=1`. -/
theorem C8_dotenv_semantics_witness :
    _parse_dotenv_line ("  export FOO=1".data) = parseKV (stripL ("FOO=1".data)) :=
  (C8_dotenv_semantics ("  export FOO=1".data) "" []).2.2.1 ("FOO=1".data) (by decide)

/-- Every character of a zero-padded number is a digit. -/
theorem mem_pad_digit (w n : Nat) (c : Char) (h : c ∈ pad w n) : isDigitCh c = true := by
  unfold pad at h
  rcases List.mem_append.mp h with h1 | h1
  · rw [List.eq_of_mem_replicate h1]
    decide
  · exact mem_natDigits_digit n c h1

/-- A digit is not `'+'`. -/
theorem isDigitCh_ne_plus (c : Char) (h : isDigitCh c = true) : c ≠ '+' := by
  rintro rfl
  exact absurd h (by decide)

/-- No `'+'` in either part, none in the append. -/
theorem no_plus_append {a b : List Char} (ha : ∀ c ∈ a, c ≠ '+') (hb : ∀ c ∈ b, c ≠ '+') :
    ∀ c ∈ a ++ b, c ≠ '+' := by
  intro c hc
  rcases List.mem_append.mp hc with h | h
  exacts [ha c h, hb c h]

/-- No `'+'` at the head or in the tail, none in the cons. -/
theorem no_plus_cons {x : Char} {b : List Char} (hx : x ≠ '+') (hb : ∀ c ∈ b, c ≠ '+') :
    ∀ c ∈ x :: b, c ≠ '+' := by
  intro c hc
  rcases List.mem_cons.mp hc with h | h
  · subst h; exact hx
  · exact hb c h

/-- The empty text has no `'+'`. -/
theorem no_plus_nil : ∀ c ∈ ([] : List Char), c ≠ '+' := by
  intro c hc
  exact absurd hc (List.not_mem_nil c)

/-- A zero-padded number has no `'+'`. -/
theorem pad_no_plus (w n : Nat) : ∀ c ∈ pad w n, c ≠ '+' :=
  fun c h => isDigitCh_ne_plus c (mem_pad_digit w n c h)

/-- The optional microsecond part has no `'+'`. -/
theorem us_no_plus (us : Nat) :
    ∀ c ∈ (if us = 0 then ([] : List Char) else '.' :: pad 6 us), c ≠ '+' := by
  by_cases h : us = 0
  · rw [if_pos h]; exact no_plus_nil
  · rw [if_neg h]; exact no_plus_cons (by decide) (pad_no_plus _ _)

/-- The offset-free part of `isoformat` (a naive datetime's text) contains
no `'+'`. -/
theorem isoformatDT_naive_no_plus (d : PyDateTime) :
    ∀ c ∈ isoformatDT { d with tz := PyTZ.naive }, c ≠ '+' := by
  show ∀ c ∈ (pad 4 d.year ++ '-' :: pad 2 d.month ++ '-' :: pad 2 d.day ++
      'T' :: pad 2 d.hour ++ ':' :: pad 2 d.minute ++ ':' :: pad 2 d.second ++
      (if d.microsecond = 0 then ([] : List Char) else '.' :: pad 6 d.microsecond) ++
      ([] : List Char)), c ≠ '+'
  have p1 : ∀ c ∈ pad 4 d.year ++ '-' :: pad 2 d.month, c ≠ '+' :=
    no_plus_append (pad_no_plus _ _) (no_plus_cons (by decide) (pad_no_plus _ _))
  have p2 : ∀ c ∈ pad 4 d.year ++ '-' :: pad 2 d.month ++ '-' :: pad 2 d.day, c ≠ '+' :=
    no_plus_append p1 (no_plus_cons (by decide) (pad_no_plus _ _))
  have p3 : ∀ c ∈ pad 4 d.year ++ '-' :: pad 2 d.month ++ '-' :: pad 2 d.day ++
      'T' :: pad 2 d.hour, c ≠ '+' :=
    no_plus_append p2 (no_plus_cons (by decide) (pad_no_plus _ _))
  have p4 : ∀ c ∈ pad 4 d.year ++ '-' :: pad 2 d.month ++ '-' :: pad 2 d.day ++
      'T' :: pad 2 d.hour ++ ':' :: pad 2 d.minute, c ≠ '+' :=
    no_plus_append p3 (no_plus_cons (by decide) (pad_no_plus _ _))
  have p5 : ∀ c ∈ pad 4 d.year ++ '-' :: pad 2 d.month ++ '-' :: pad 2 d.day ++
      'T' :: pad 2 d.hour ++ ':' :: pad 2 d.minute ++ ':' :: pad 2 d.second, c ≠ '+' :=
    no_plus_append p4 (no_plus_cons (by decide) (pad_no_plus _ _))
  exact no_plus_append (no_plus_append p5 (us_no_plus _)) no_plus_nil

/-- A date's `isoformat` text contains no `'+'`. -/
theorem isoformatDate_no_plus (dd : PyDate) :
    ∀ c ∈ isoformatDate dd, c ≠ '+' := by
  show ∀ c ∈ (pad 4 dd.year ++ '-' :: pad 2 dd.month ++ '-' :: pad 2 dd.day), c ≠ '+'
  have p1 : ∀ c ∈ pad 4 dd.year ++ '-' :: pad 2 dd.month, c ≠ '+' :=
    no_plus_append (pad_no_plus _ _) (no_plus_cons (by decide) (pad_no_plus _ _))
  exact no_plus_append p1 (no_plus_cons (by decide) (pad_no_plus _ _))

/-- Replacing `"+00:00"` in `pre ++ "+00:00"` when `pre` has no `'+'`:
exactly the suffix is rewritten. -/
theorem replaceGo_clean_concat (pre : List Char) (h : ∀ c ∈ pre, c ≠ '+') :
    replaceGo ("+00:00".data) ("Z".data) 0 (pre ++ "+00:00".data) = pre ++ "Z".data := by
  induction pre with
  | nil => rfl
  | cons c rest ih =>
    have hc : c ≠ '+' := h c (List.mem_cons_self _ _)
    have hrest : ∀ x ∈ rest, x ≠ '+' := fun x hx => h x (List.mem_cons_of_mem _ hx)
    show replaceGo _ _ 0 (c :: (rest ++ "+00:00".data)) = c :: (rest ++ "Z".data)
    rw [replaceGo]
    rw [if_neg ?_]
    · rw [ih hrest]
    · show ¬(("+00:00".data.isPrefixOf (c :: (rest ++ "+00:00".data))) = true)
      simp only [String.data]
      intro hp
      simp only [List.isPrefixOf, Bool.and_eq_true, beq_iff_eq] at hp
      exact hc hp.1.symm

/-- Replacing `"+00:00"` in a text with no `'+'` does nothing. -/
theorem replaceGo_clean_id (l : List Char) (h : ∀ c ∈ l, c ≠ '+') :
    replaceGo ("+00:00".data) ("Z".data) 0 l = l := by
  induction l with
  | nil => rfl
  | cons c rest ih =>
    have hc : c ≠ '+' := h c (List.mem_cons_self _ _)
    have hrest : ∀ x ∈ rest, x ≠ '+' := fun x hx => h x (List.mem_cons_of_mem _ hx)
    rw [replaceGo]
    rw [if_neg ?_]
    · rw [ih hrest]
    · intro hp
      simp only [List.isPrefixOf, Bool.and_eq_true, beq_iff_eq] at hp
      exact hc hp.1.symm

/-- C6: the `json_default` fallback.  A naive datetime is first treated as
UTC (so the same instant, naive or with explicit zero offset, formats to
the same text); a zero-offset instant always ends in a literal `Z` with no
`"+00:00"` anywhere in the text; a date renders as its ISO text; a
`Decimal` maps to a number; anything else maps to its textual
representation.  (`json_default` is a function, so formatting the same
value twice yields identical text by construction.) -/
theorem C6_json_default_serializer (d : PyDateTime) (dd : PyDate) (q : ℚ) (r : String) :
    (json_default (.dt { d with tz := PyTZ.naive }) =
      json_default (.dt { d with tz := PyTZ.offset 0 })) ∧
    ((d.tz = PyTZ.naive ∨ d.tz = PyTZ.offset 0) →
      ∃ pre : List Char,
        json_default (.dt d) = .str (String.mk (pre ++ ['Z'])) ∧
        (∀ c ∈ pre, c ≠ '+') ∧
        pre ++ "+00:00".data = isoformatDT { d with tz := PyTZ.offset 0 }) ∧
    (json_default (.date dd) = .str (String.mk (isoformatDate dd))) ∧
    (json_default (.dec q) = .num q) ∧
    (json_default (.other r) = .str r) := by
  have hsplit : isoformatDT { d with tz := PyTZ.offset 0 } =
      isoformatDT { d with tz := PyTZ.naive } ++ "+00:00".data := by
    unfold isoformatDT
    simp only [List.append_nil, List.append_assoc]
    norm_num [show offsetChars 0 = "+00:00".data from by decide]
  refine ⟨by rfl, ?_, ?_, by rfl, by rfl⟩
  · intro htz
    have hkey : json_default (.dt d) =
        .str (pyReplace (String.mk (isoformatDT { d with tz := PyTZ.offset 0 })) "+00:00" "Z") := by
      rcases htz with h | h
      · simp [json_default, h]
      · have hd : { d with tz := PyTZ.offset 0 } = d := by
          obtain ⟨y, mo, da, hh, mi, se, us, tz⟩ := d
          simp at h
          rw [h]
        rw [hd]
        simp [json_default, h]
    refine ⟨isoformatDT { d with tz := PyTZ.naive }, ?_, isoformatDT_naive_no_plus d, hsplit.symm⟩
    rw [hkey, hsplit]
    unfold pyReplace
    rw [if_neg (by decide)]
    have := replaceGo_clean_concat (isoformatDT { d with tz := PyTZ.naive })
      (isoformatDT_naive_no_plus d)
    rw [show (String.mk (isoformatDT { d with tz := PyTZ.naive } ++ "+00:00".data)).data =
      isoformatDT { d with tz := PyTZ.naive } ++ "+00:00".data from rfl]
    rw [this]
  · show JsonDefaultOut.str (pyReplace (String.mk (isoformatDate dd)) "+00:00" "Z") = _
    unfold pyReplace
    rw [if_neg (by decide)]
    rw [show (String.mk (isoformatDate dd)).data = isoformatDate dd from rfl]
    rw [replaceGo_clean_id (isoformatDate dd) (isoformatDate_no_plus dd)]

/-- Closed witness for C6: the sample naive instant renders with a literal
`Z` suffix. -/
theorem C6_json_default_serializer_witness :
    json_default (PyVal.dt dtSample) = JsonDefaultOut.str "2024-01-02T03:04:05Z" := by
  obtain ⟨pre, h1, h2, h3⟩ :=
    (C6_json_default_serializer dtSample ⟨2024, 1, 2⟩ 0 "").2.1 (Or.inl rfl)
  have hpre : pre = "2024-01-02T03:04:05".data :=
    List.append_cancel_right (h3.trans (by rfl))
  rw [h1, hpre]
  rfl


/-! JSON round trip (C5): whitespace, head-shape and dispatch groundwork. -/

theorem skipWs_not_ws (c : Char) (t : List Char) (h : isJsonWs c = false) :
    skipWs (c :: t) = c :: t := by simp [skipWs, h]

theorem skipWs_ws (c : Char) (t : List Char) (h : isJsonWs c = true) :
    skipWs (c :: t) = skipWs t := by simp [skipWs, h]

theorem skipWs_replicate_space (m : Nat) (x : List Char) :
    skipWs (List.replicate m ' ' ++ x) = skipWs x := by
  induction m with
  | zero => rfl
  | succ n ih => rw [List.replicate_succ, List.cons_append, skipWs_ws _ _ (by decide), ih]

theorem skipWs_nl_indent (n : Nat) (x : List Char) :
    skipWs ('\n' :: (indentChars n ++ x)) = skipWs x := by
  rw [skipWs_ws _ _ (by decide), indentChars, skipWs_replicate_space]

theorem skipWs_idem (cs : List Char) : skipWs (skipWs cs) = skipWs cs := by
  induction cs with
  | nil => rfl
  | cons c t ih =>
    cases h : isJsonWs c
    · rw [skipWs_not_ws c t h, skipWs_not_ws c t h]
    · rw [skipWs_ws c t h]
      exact ih

theorem head?_append_some {l r : List Char} {c : Char} (h : l.head? = some c) :
    (l ++ r).head? = some c := by
  cases l with
  | nil => simp at h
  | cons a t => simpa using h

theorem skipWs_of_head {l : List Char} {c : Char} (h : l.head? = some c)
    (hws : isJsonWs c = false) : skipWs l = l := by
  cases l with
  | nil => rfl
  | cons a t =>
    simp only [List.head?_cons, Option.some.injEq] at h
    subst h
    exact skipWs_not_ws a t hws

theorem jfuel_pos (v : Json) : 1 ≤ jfuel v := by
  cases v with
  | null => decide
  | bool b => simp [jfuel]
  | num m e => simp [jfuel]
  | str s => simp [jfuel]
  | nan => decide
  | inf neg => simp [jfuel]
  | arr items => cases items <;> simp [jfuel]
  | obj fields => cases fields <;> simp [jfuel]

theorem digit_head_facts (c : Char) (h : isDigitCh c = true) :
    isJsonWs c = false ∧ ¬(c = '"') ∧ ¬(c = '{') ∧ ¬(c = '[') ∧ ¬(c = 't') ∧ ¬(c = 'f') ∧
      ¬(c = 'n') ∧ ¬(c = 'N') ∧ ¬(c = 'I') ∧ ¬(c = '-') ∧ ¬(c = ']') := by
  have hws : isJsonWs c = false := by
    cases hw : isJsonWs c
    · rfl
    · exfalso
      simp only [isJsonWs, Bool.or_eq_true, decide_eq_true_eq] at hw
      rcases hw with ((h1 | h1) | h1) | h1 <;> subst h1 <;> exact absurd h (by decide)
  refine ⟨hws, ?_, ?_, ?_, ?_, ?_, ?_, ?_, ?_, ?_, ?_⟩ <;>
    (rintro rfl; exact absurd h (by decide))

theorem parseValue_quote (f : Nat) (W : List Char) :
    parseValue (f + 1) ('"' :: W) =
      (parseStringBody W).map (fun p => (Json.str (String.mk p.1), p.2)) := by
  rw [parseValue]
  rfl

theorem parseValue_lbrace (f : Nat) (W : List Char) :
    parseValue (f + 1) ('{' :: W) =
      (if (skipWs W).head? = some '}' then some (.obj [], (skipWs W).tail)
       else parseObj f (skipWs W) []) := by
  rw [parseValue]
  rfl

theorem parseValue_lbrack (f : Nat) (W : List Char) :
    parseValue (f + 1) ('[' :: W) =
      (if (skipWs W).head? = some ']' then some (.arr [], (skipWs W).tail)
       else parseArr f (skipWs W) []) := by
  rw [parseValue]
  rfl

theorem parseValue_null_lit (f : Nat) (rest : List Char) :
    parseValue (f + 1) ('n' :: 'u' :: 'l' :: 'l' :: rest) = some (.null, rest) := by
  rw [parseValue]
  simp [skipWs, isJsonWs, List.isPrefixOf]

theorem parseValue_true_lit (f : Nat) (rest : List Char) :
    parseValue (f + 1) ('t' :: 'r' :: 'u' :: 'e' :: rest) = some (.bool true, rest) := by
  rw [parseValue]
  simp [skipWs, isJsonWs, List.isPrefixOf]

theorem parseValue_false_lit (f : Nat) (rest : List Char) :
    parseValue (f + 1) ('f' :: 'a' :: 'l' :: 's' :: 'e' :: rest) = some (.bool false, rest) := by
  rw [parseValue]
  simp [skipWs, isJsonWs, List.isPrefixOf]

theorem parseValue_nan_lit (f : Nat) (rest : List Char) :
    parseValue (f + 1) ('N' :: 'a' :: 'N' :: rest) = some (.nan, rest) := by
  rw [parseValue]
  simp [skipWs, isJsonWs, List.isPrefixOf]

theorem parseValue_inf_lit (f : Nat) (rest : List Char) :
    parseValue (f + 1) ('I' :: 'n' :: 'f' :: 'i' :: 'n' :: 'i' :: 't' :: 'y' :: rest) =
      some (.inf false, rest) := by
  rw [parseValue]
  simp [skipWs, isJsonWs, List.isPrefixOf]

theorem parseValue_ninf_lit (f : Nat) (rest : List Char) :
    parseValue (f + 1)
        ('-' :: 'I' :: 'n' :: 'f' :: 'i' :: 'n' :: 'i' :: 't' :: 'y' :: rest) =
      some (.inf true, rest) := by
  rw [parseValue]
  simp [skipWs, isJsonWs, List.isPrefixOf]

theorem parseValue_dispatch_num (f : Nat) (c : Char) (X : List Char) (hws : isJsonWs c = false)
    (hq : ¬(c = '"')) (hob : ¬(c = '{')) (hab : ¬(c = '[')) (ht : ¬(c = 't'))
    (hf : ¬(c = 'f')) (hn : ¬(c = 'n')) (hN : ¬(c = 'N')) (hI : ¬(c = 'I'))
    (hm : ¬(c = '-' ∧ X.head? = some 'I')) :
    parseValue (f + 1) (c :: X) = parseNumber (c :: X) := by
  rw [parseValue, skipWs_not_ws c X hws]
  simp only [hq, hob, hab, ht, hf, hn, hN, hI, hm, if_false, ite_false, if_neg]

theorem parseArr_step (f : Nat) (cs : List Char) (acc : List Json) :
    parseArr (f + 1) cs acc =
      match parseValue f cs with
      | none => none
      | some (v, r1) =>
        match skipWs r1 with
        | ',' :: r2 => parseArr f (skipWs r2) (acc ++ [v])
        | ']' :: r2 => some (.arr (acc ++ [v]), r2)
        | _ => none := by
  rw [parseArr]

theorem parseObj_step (f : Nat) (W : List Char) (acc : List (String × Json)) :
    parseObj (f + 1) ('"' :: W) acc =
      match parseStringBody W with
      | none => none
      | some (k, r1) =>
        match skipWs r1 with
        | ':' :: r2 =>
          match parseValue f r2 with
          | none => none
          | some (v, r3) =>
            match skipWs r3 with
            | ',' :: r4 => parseObj f (skipWs r4) (setField acc (String.mk k) v)
            | '}' :: r4 => some (.obj (setField acc (String.mk k) v), r4)
            | _ => none
        | _ => none := by
  rw [parseObj]
  rfl

theorem parseObj_key (f : Nat) (k Y : List Char) (acc : List (String × Json)) :
    parseObj (f + 1) ('"' :: (escapeString k ++ ('"' :: (':' :: ' ' :: Y)))) acc =
      (match parseValue f (' ' :: Y) with
      | none => none
      | some (v, r3) =>
        match skipWs r3 with
        | ',' :: r4 => parseObj f (skipWs r4) (setField acc (String.mk k) v)
        | '}' :: r4 => some (.obj (setField acc (String.mk k) v), r4)
        | _ => none) := by
  rw [parseObj_step, parse_escapeString]
  rfl

theorem printNum_shape (m e : Int) :
    (∃ d T, printNum m e = d :: T ∧ isDigitCh d = true) ∨
    (∃ d T, printNum m e = '-' :: d :: T ∧ isDigitCh d = true) := by
  obtain ⟨d, T0, hdt⟩ : ∃ d T0, natDigits m.natAbs = d :: T0 := by
    cases hh : natDigits m.natAbs with
    | nil => exact absurd hh (natDigits_ne_nil m.natAbs)
    | cons a t => exact ⟨a, t, rfl⟩
  have hd : isDigitCh d = true :=
    mem_natDigits_digit _ d (by rw [hdt]; exact List.mem_cons_self _ _)
  by_cases hm : m < 0
  · right
    by_cases he : e = 0
    · exact ⟨d, T0, by simp [printNum, he, intDigits, hm, hdt], hd⟩
    · exact ⟨d, T0 ++ 'e' :: intDigits e,
        by simp [printNum, he, intDigits, hm, hdt, List.cons_append], hd⟩
  · left
    by_cases he : e = 0
    · exact ⟨d, T0, by simp [printNum, he, intDigits, hm, hdt], hd⟩
    · exact ⟨d, T0 ++ 'e' :: intDigits e,
        by simp [printNum, he, intDigits, hm, hdt, List.cons_append], hd⟩

theorem printValue_head (ind : Nat) (v : Json) :
    ∃ c, (printValue ind v).head? = some c ∧ isJsonWs c = false ∧ ¬(c = ']') := by
  cases v with
  | null => exact ⟨'n', by simp [printValue], by decide, by decide⟩
  | bool b =>
    cases b
    · exact ⟨'f', by simp [printValue], by decide, by decide⟩
    · exact ⟨'t', by simp [printValue], by decide, by decide⟩
  | num m e =>
    rcases printNum_shape m e with ⟨d, T, hdt, hd⟩ | ⟨d, T, hdt, hd⟩
    · obtain ⟨hws, _, _, _, _, _, _, _, _, _, hrb⟩ := digit_head_facts d hd
      exact ⟨d, by simp [printValue, hdt], hws, hrb⟩
    · exact ⟨'-', by simp [printValue, hdt], by decide, by decide⟩
  | str s => exact ⟨'"', by simp [printValue, printQString], by decide, by decide⟩
  | nan => exact ⟨'N', by simp [printValue], by decide, by decide⟩
  | inf neg =>
    cases neg
    · exact ⟨'I', by simp [printValue], by decide, by decide⟩
    · exact ⟨'-', by simp [printValue], by decide, by decide⟩
  | arr items =>
    cases items with
    | nil => exact ⟨'[', by simp [printValue], by decide, by decide⟩
    | cons x xs => exact ⟨'[', by simp [printValue], by decide, by decide⟩
  | obj fields =>
    cases fields with
    | nil => exact ⟨'{', by simp [printValue], by decide, by decide⟩
    | cons kv kvs =>
      obtain ⟨k, w⟩ := kv
      exact ⟨'{', by simp [printValue], by decide, by decide⟩


/-! Fuel bounds and `setField` on a fresh key. -/

theorem parseValue_skip_space (g : Nat) (X : List Char) :
    parseValue (g + 1) (' ' :: X) = parseValue (g + 1) X := by
  conv_lhs => rw [parseValue]
  conv_rhs => rw [parseValue]
  rw [skipWs_ws _ _ (by decide)]

theorem setField_not_mem (acc : List (String × Json)) (k : String) (v : Json)
    (h : ¬(k ∈ acc.map Prod.fst)) : setField acc k v = acc ++ [(k, v)] := by
  induction acc with
  | nil => rfl
  | cons p rest ih =>
    obtain ⟨k', v'⟩ := p
    simp only [List.map_cons, List.mem_cons] at h
    push_neg at h
    rw [setField, if_neg (fun he => h.1 he.symm), ih h.2]
    rfl

mutual

theorem jfuel_le_print (v : Json) (ind : Nat) : jfuel v ≤ (printValue ind v).length + 1 := by
  cases v with
  | null => simp only [jfuel]; omega
  | bool b => simp only [jfuel]; omega
  | num m e => simp only [jfuel]; omega
  | str s => simp only [jfuel]; omega
  | nan => simp only [jfuel]; omega
  | inf neg => simp only [jfuel]; omega
  | arr items =>
    cases items with
    | nil => simp only [jfuel]; omega
    | cons x xs =>
      have h1 := jfuel_le_print x (ind + 1)
      have h2 := arrFuel_le_items xs (ind + 1)
      rw [jfuel, arrFuel, printValue]
      simp only [List.length_cons, List.length_append, indentChars, List.length_replicate]
      omega
  | obj fields =>
    cases fields with
    | nil => simp only [jfuel]; omega
    | cons kv kvs =>
      obtain ⟨k, v⟩ := kv
      have h1 := jfuel_le_print v (ind + 1)
      have h2 := objFuel_le_fields kvs (ind + 1)
      rw [jfuel, objFuel, printValue]
      simp only [List.length_cons, List.length_append, indentChars, List.length_replicate]
      omega

theorem arrFuel_le_items (xs : List Json) (ind : Nat) :
    arrFuel xs ≤ (printItems ind xs).length := by
  cases xs with
  | nil => simp [arrFuel, printItems]
  | cons y ys =>
    have h1 := jfuel_le_print y ind
    have h2 := arrFuel_le_items ys ind
    rw [arrFuel, printItems]
    simp only [List.length_cons, List.length_append, indentChars, List.length_replicate]
    omega

theorem objFuel_le_fields (kvs : List (String × Json)) (ind : Nat) :
    objFuel kvs ≤ (printFields ind kvs).length := by
  cases kvs with
  | nil => simp [objFuel, printFields]
  | cons kv kvs2 =>
    obtain ⟨k, v⟩ := kv
    have h1 := jfuel_le_print v ind
    have h2 := objFuel_le_fields kvs2 ind
    rw [objFuel, printFields]
    simp only [List.length_cons, List.length_append, indentChars, List.length_replicate]
    omega

end


/-! The print-parse round trip itself, by induction on the parser fuel. -/

theorem parseArr_cont (f : Nat) (cs REST : List Char) (acc : List Json) (x : Json)
    (h : parseValue f cs = some (x, REST)) :
    parseArr (f + 1) cs acc =
      match skipWs REST with
      | ',' :: r2 => parseArr f (skipWs r2) (acc ++ [x])
      | ']' :: r2 => some (.arr (acc ++ [x]), r2)
      | _ => none := by
  rw [parseArr_step, h]

theorem parseObj_cont (f : Nat) (k Y REST : List Char) (v : Json)
    (acc : List (String × Json)) (h : parseValue f (' ' :: Y) = some (v, REST)) :
    parseObj (f + 1) ('"' :: (escapeString k ++ ('"' :: (':' :: ' ' :: Y)))) acc =
      match skipWs REST with
      | ',' :: r4 => parseObj f (skipWs r4) (setField acc (String.mk k) v)
      | '}' :: r4 => some (.obj (setField acc (String.mk k) v), r4)
      | _ => none := by
  rw [parseObj_key, h]

theorem roundTripAux (fuel : Nat) :
    (∀ v ind rest, jsonWF v = true → jfuel v ≤ fuel → numStop rest = true →
      parseValue fuel (printValue ind v ++ rest) = some (v, rest)) ∧
    (∀ x xs ind acc rest, jsonWF x = true → jsonListWF xs = true →
      arrFuel (x :: xs) ≤ fuel →
      parseArr fuel
        (printValue (ind + 1) x ++
          (printItems (ind + 1) xs ++ ('\n' :: (indentChars ind ++ (']' :: rest))))) acc =
        some (.arr (acc ++ x :: xs), rest)) ∧
    (∀ k v kvs ind acc rest, jsonWF v = true → jsonFieldsWF kvs = true →
      ((acc ++ (k, v) :: kvs).map Prod.fst).Nodup →
      objFuel ((k, v) :: kvs) ≤ fuel →
      parseObj fuel
        ('"' :: (escapeString k.data ++ ('"' :: (':' :: ' ' ::
          (printValue (ind + 1) v ++
            (printFields (ind + 1) kvs ++ ('\n' :: (indentChars ind ++ ('}' :: rest))))))))) acc =
        some (.obj (acc ++ (k, v) :: kvs), rest)) := by
  induction fuel with
  | zero =>
    refine ⟨fun v ind rest hWF hf hrest => absurd hf (by have := jfuel_pos v; omega),
            fun x xs ind acc rest hWF hWFs hf => absurd hf (by rw [arrFuel]; omega),
            fun k v kvs ind acc rest hWFv hWFs hNd hf => absurd hf (by rw [objFuel]; omega)⟩
  | succ f ih =>
    obtain ⟨ihV, ihA, ihO⟩ := ih
    refine ⟨?_, ?_, ?_⟩
    · intro v ind rest hWF hf hrest
      cases v with
      | null =>
        rw [show printValue ind Json.null = ['n', 'u', 'l', 'l'] from rfl]
        simp only [List.cons_append, List.nil_append]
        exact parseValue_null_lit f rest
      | bool b =>
        cases b
        · rw [show printValue ind (Json.bool false) = ['f', 'a', 'l', 's', 'e'] from rfl]
          simp only [List.cons_append, List.nil_append]
          exact parseValue_false_lit f rest
        · rw [show printValue ind (Json.bool true) = ['t', 'r', 'u', 'e'] from rfl]
          simp only [List.cons_append, List.nil_append]
          exact parseValue_true_lit f rest
      | nan =>
        rw [show printValue ind Json.nan = ['N', 'a', 'N'] from rfl]
        simp only [List.cons_append, List.nil_append]
        exact parseValue_nan_lit f rest
      | inf neg =>
        cases neg
        · rw [show printValue ind (Json.inf false) =
            ['I', 'n', 'f', 'i', 'n', 'i', 't', 'y'] from rfl]
          simp only [List.cons_append, List.nil_append]
          exact parseValue_inf_lit f rest
        · rw [show printValue ind (Json.inf true) =
            ['-', 'I', 'n', 'f', 'i', 'n', 'i', 't', 'y'] from rfl]
          simp only [List.cons_append, List.nil_append]
          exact parseValue_ninf_lit f rest
      | num m e =>
        rw [show printValue ind (Json.num m e) = printNum m e from rfl]
        rcases printNum_shape m e with ⟨d, T, hdt, hd⟩ | ⟨d, T, hdt, hd⟩
        · obtain ⟨hws, hq, hob, hab, ht', hf', hn, hN, hI, hmin, _⟩ := digit_head_facts d hd
          rw [hdt, List.cons_append]
          rw [parseValue_dispatch_num f d (T ++ rest) hws hq hob hab ht' hf' hn hN hI
            (fun hc => hmin hc.1)]
          rw [← List.cons_append, ← hdt]
          exact parseNumber_printNum m e rest hrest
        · obtain ⟨_, _, _, _, _, _, _, _, hdI, _, _⟩ := digit_head_facts d hd
          rw [hdt, List.cons_append, List.cons_append]
          rw [parseValue_dispatch_num f '-' (d :: (T ++ rest)) (by decide) (by decide)
            (by decide) (by decide) (by decide) (by decide) (by decide) (by decide)
            (by decide) (fun hc => hdI (by simpa using hc.2))]
          rw [← List.cons_append, ← List.cons_append, ← hdt]
          exact parseNumber_printNum m e rest hrest
      | str s =>
        rw [show printValue ind (Json.str s) = '"' :: (escapeString s.data ++ ['"']) from rfl]
        rw [List.cons_append, List.append_assoc]
        rw [show (['"'] : List Char) ++ rest = '"' :: rest from rfl]
        rw [parseValue_quote, parse_escapeString]
        rfl
      | arr items =>
        cases items with
        | nil =>
          rw [show printValue ind (Json.arr []) = ['[', ']'] from rfl]
          simp only [List.cons_append, List.nil_append]
          rw [parseValue_lbrack, skipWs_not_ws _ _ (by decide)]
          rfl
        | cons x xs =>
          have hf' : arrFuel (x :: xs) ≤ f := by rw [jfuel] at hf; omega
          have hWF' : jsonWF x = true ∧ jsonListWF xs = true := by
            simpa [jsonWF, jsonListWF, Bool.and_eq_true] using hWF
          simp only [printValue, List.append_assoc, List.cons_append, List.nil_append]
          rw [parseValue_lbrack]
          obtain ⟨c, hc, hcws, hcrb⟩ := printValue_head (ind + 1) x
          have hsw : skipWs ('\n' :: (indentChars (ind + 1) ++ (printValue (ind + 1) x ++
              (printItems (ind + 1) xs ++ ('\n' :: (indentChars ind ++ (']' :: rest))))))) =
              printValue (ind + 1) x ++
                (printItems (ind + 1) xs ++ ('\n' :: (indentChars ind ++ (']' :: rest)))) := by
            rw [skipWs_nl_indent]
            exact skipWs_of_head (head?_append_some hc) hcws
          rw [hsw]
          have hne : ¬((printValue (ind + 1) x ++
              (printItems (ind + 1) xs ++
                ('\n' :: (indentChars ind ++ (']' :: rest))))).head? = some ']') := by
            rw [head?_append_some hc]
            intro hcc
            exact hcrb (Option.some.inj hcc)
          rw [if_neg hne]
          simpa using ihA x xs ind [] rest hWF'.1 hWF'.2 hf'
      | obj fields =>
        cases fields with
        | nil =>
          rw [show printValue ind (Json.obj []) = ['{', '}'] from rfl]
          simp only [List.cons_append, List.nil_append]
          rw [parseValue_lbrace, skipWs_not_ws _ _ (by decide)]
          rfl
        | cons kv kvs =>
          obtain ⟨k, v⟩ := kv
          have hf' : objFuel ((k, v) :: kvs) ≤ f := by rw [jfuel] at hf; omega
          have hWF' : (((k, v) :: kvs).map Prod.fst).Nodup ∧ jsonWF v = true ∧
              jsonFieldsWF kvs = true := by
            simpa [jsonWF, jsonFieldsWF, Bool.and_eq_true, decide_eq_true_eq,
              and_assoc] using hWF
          simp only [printValue, printQString, List.append_assoc, List.cons_append,
            List.nil_append]
          rw [parseValue_lbrace]
          rw [show skipWs ('\n' :: (indentChars (ind + 1) ++
              ('"' :: (escapeString k.data ++ ('"' :: (':' :: ' ' ::
                (printValue (ind + 1) v ++ (printFields (ind + 1) kvs ++
                  ('\n' :: (indentChars ind ++ ('}' :: rest))))))))))) =
              '"' :: (escapeString k.data ++ ('"' :: (':' :: ' ' ::
                (printValue (ind + 1) v ++ (printFields (ind + 1) kvs ++
                  ('\n' :: (indentChars ind ++ ('}' :: rest)))))))) from by
            rw [skipWs_nl_indent]
            exact skipWs_not_ws _ _ (by decide)]
          rw [if_neg (by simp)]
          simpa using ihO k v kvs ind [] rest hWF'.2.1 hWF'.2.2 (by simpa using hWF'.1) hf'
    · intro x xs ind acc rest hWF hWFs hfuel
      have hfx : jfuel x ≤ f := by rw [arrFuel] at hfuel; omega
      have hfxs : arrFuel xs ≤ f := by rw [arrFuel] at hfuel; omega
      cases xs with
      | nil =>
        simp only [printItems, List.nil_append]
        rw [parseArr_cont f _ _ acc x (ihV x (ind + 1) _ hWF hfx (by rfl))]
        rw [skipWs_nl_indent, skipWs_not_ws _ _ (by decide)]
        rfl
      | cons y ys =>
        simp only [printItems, List.append_assoc, List.cons_append]
        rw [parseArr_cont f _ _ acc x (ihV x (ind + 1) _ hWF hfx (by rfl))]
        rw [skipWs_not_ws _ _ (by decide)]
        show parseArr f (skipWs ('\n' :: (indentChars (ind + 1) ++ (printValue (ind + 1) y ++
            (printItems (ind + 1) ys ++ ('\n' :: (indentChars ind ++ (']' :: rest))))))))
            (acc ++ [x]) =
          some (Json.arr (acc ++ x :: y :: ys), rest)
        rw [skipWs_nl_indent]
        obtain ⟨c, hc, hcws, _⟩ := printValue_head (ind + 1) y
        rw [skipWs_of_head (head?_append_some hc) hcws]
        have hWFy : jsonWF y = true ∧ jsonListWF ys = true := by
          simpa [jsonListWF, Bool.and_eq_true] using hWFs
        simpa using ihA y ys ind (acc ++ [x]) rest hWFy.1 hWFy.2 hfxs
    · intro k v kvs ind acc rest hWFv hWFkvs hNd hfuel
      have hfv : jfuel v ≤ f := by rw [objFuel] at hfuel; omega
      have hfkvs : objFuel kvs ≤ f := by rw [objFuel] at hfuel; omega
      obtain ⟨f', rfl⟩ : ∃ f', f = f' + 1 := ⟨f - 1, by have := jfuel_pos v; omega⟩
      have hstop : numStop (printFields (ind + 1) kvs ++
          ('\n' :: (indentChars ind ++ ('}' :: rest)))) = true := by
        cases kvs with
        | nil => rfl
        | cons kv2 kvs2 =>
          obtain ⟨k2, v2⟩ := kv2
          rfl
      have hv : parseValue (f' + 1) (' ' :: (printValue (ind + 1) v ++
          (printFields (ind + 1) kvs ++ ('\n' :: (indentChars ind ++ ('}' :: rest)))))) =
          some (v, printFields (ind + 1) kvs ++
            ('\n' :: (indentChars ind ++ ('}' :: rest)))) := by
        rw [parseValue_skip_space]
        exact ihV v (ind + 1) _ hWFv hfv hstop
      rw [parseObj_cont (f' + 1) k.data _ _ v acc hv]
      have hmem : ¬(k ∈ acc.map Prod.fst) := by
        simp only [List.map_append, List.nodup_append] at hNd
        intro hk
        exact hNd.2.2 hk (by simp)
      cases kvs with
      | nil =>
        rw [show printFields (ind + 1) ([] : List (String × Json)) = [] from rfl,
          List.nil_append]
        rw [skipWs_nl_indent, skipWs_not_ws _ _ (by decide)]
        show some (Json.obj (setField acc (String.mk k.data) v), rest) =
          some (Json.obj (acc ++ (k, v) :: []), rest)
        rw [show String.mk k.data = k from rfl, setField_not_mem acc k v hmem]
      | cons kv2 kvs2 =>
        obtain ⟨k2, v2⟩ := kv2
        simp only [printFields, printQString, List.append_assoc, List.cons_append,
          List.nil_append]
        rw [skipWs_not_ws _ _ (by decide)]
        show parseObj (f' + 1) (skipWs ('\n' :: (indentChars (ind + 1) ++
            ('"' :: (escapeString k2.data ++ ('"' :: (':' :: ' ' :: (printValue (ind + 1) v2 ++
              (printFields (ind + 1) kvs2 ++
                ('\n' :: (indentChars ind ++ ('}' :: rest))))))))))))
            (setField acc (String.mk k.data) v) =
          some (Json.obj (acc ++ (k, v) :: (k2, v2) :: kvs2), rest)
        rw [skipWs_nl_indent, skipWs_not_ws _ _ (by decide)]
        rw [show String.mk k.data = k from rfl, setField_not_mem acc k v hmem]
        have hWF2 : jsonWF v2 = true ∧ jsonFieldsWF kvs2 = true := by
          simpa [jsonFieldsWF, Bool.and_eq_true] using hWFkvs
        have hNd' : (((acc ++ [(k, v)]) ++ (k2, v2) :: kvs2).map Prod.fst).Nodup := by
          simpa [List.append_assoc] using hNd
        simpa using ihO k2 v2 kvs2 ind (acc ++ [(k, v)]) rest hWF2.1 hWF2.2 hNd' hfkvs


/-! Every value the parser returns is well-formed (object keys `Nodup`). -/

theorem jsonListWF_append (a b : List Json) :
    jsonListWF (a ++ b) = (jsonListWF a && jsonListWF b) := by
  induction a with
  | nil => simp [jsonListWF]
  | cons x t ih => simp [jsonListWF, ih, Bool.and_assoc]

theorem jsonFieldsWF_setField (acc : List (String × Json)) (k : String) (v : Json)
    (hacc : jsonFieldsWF acc = true) (hv : jsonWF v = true) :
    jsonFieldsWF (setField acc k v) = true := by
  induction acc with
  | nil => simp [setField, jsonFieldsWF, hv]
  | cons p rest ih =>
    obtain ⟨k', v'⟩ := p
    simp only [jsonFieldsWF, Bool.and_eq_true] at hacc
    rw [setField]
    by_cases hk : k' = k
    · rw [if_pos hk]
      simp [jsonFieldsWF, hv, hacc.2]
    · rw [if_neg hk]
      simp [jsonFieldsWF, hacc.1, ih hacc.2]

theorem mapFst_setField (acc : List (String × Json)) (k : String) (v : Json) :
    (setField acc k v).map Prod.fst =
      if k ∈ acc.map Prod.fst then acc.map Prod.fst else acc.map Prod.fst ++ [k] := by
  induction acc with
  | nil => simp [setField]
  | cons p rest ih =>
    obtain ⟨k', v'⟩ := p
    rw [setField]
    by_cases hk : k' = k
    · subst hk
      simp
    · rw [if_neg hk]
      simp only [List.map_cons, List.mem_cons]
      rw [ih]
      have hk2 : ¬(k = k') := fun hh => hk hh.symm
      by_cases hmem : k ∈ rest.map Prod.fst
      · simp [hmem, hk2]
      · simp [hmem, hk2]

theorem nodup_setField (acc : List (String × Json)) (k : String) (v : Json)
    (h : (acc.map Prod.fst).Nodup) : ((setField acc k v).map Prod.fst).Nodup := by
  rw [mapFst_setField]
  by_cases hmem : k ∈ acc.map Prod.fst
  · rwa [if_pos hmem]
  · rw [if_neg hmem]
    simp [List.nodup_append, h, hmem]

theorem parseNumber_num (cs : List Char) (v : Json) (r : List Char)
    (h : parseNumber cs = some (v, r)) : ∃ m e, v = Json.num m e := by
  unfold parseNumber at h
  split at h
  · exact absurd h (by simp)
  · exact ⟨_, _, (congrArg Prod.fst (Option.some.inj h)).symm⟩

set_option maxHeartbeats 1000000 in
theorem parseWF (fuel : Nat) :
    (∀ cs v r, parseValue fuel cs = some (v, r) → jsonWF v = true) ∧
    (∀ cs acc v r, parseArr fuel cs acc = some (v, r) → jsonListWF acc = true →
      jsonWF v = true) ∧
    (∀ cs acc v r, parseObj fuel cs acc = some (v, r) →
      jsonFieldsWF acc = true → (acc.map Prod.fst).Nodup → jsonWF v = true) := by
  induction fuel with
  | zero =>
    refine ⟨fun cs v r h => absurd h (by simp [parseValue]),
            fun cs acc v r h _ => absurd h (by simp [parseArr]),
            fun cs acc v r h _ _ => absurd h (by simp [parseObj])⟩
  | succ f ih =>
    obtain ⟨ihV, ihA, ihO⟩ := ih
    refine ⟨?_, ?_, ?_⟩
    · intro cs v r h
      rw [parseValue] at h
      split at h
      · exact Option.noConfusion h
      · rename_i c rest
        split_ifs at h
        all_goals first
          | exact Option.noConfusion h
          | (obtain ⟨hv1, hv2⟩ := Prod.mk.inj (Option.some.inj h)
             rw [← hv1]
             decide)
          | (rcases Option.map_eq_some'.mp h with ⟨p, hp1, hp2⟩
             have hp2' : (Json.str (String.mk p.1), p.2) = (v, r) := hp2
             rw [← (Prod.mk.inj hp2').1]
             rfl)
          | exact ihO _ _ _ _ h rfl List.nodup_nil
          | exact ihA _ _ _ _ h rfl
          | (obtain ⟨m', e', rfl⟩ := parseNumber_num _ _ _ h
             rfl)
    · intro cs acc v r h hacc
      rw [parseArr] at h
      split at h
      · exact Option.noConfusion h
      · rename_i v1 r1 heq
        have hv1 : jsonWF v1 = true := ihV _ _ _ heq
        have hacc' : jsonListWF (acc ++ [v1]) = true := by
          rw [jsonListWF_append]
          simp [hacc, jsonListWF, hv1]
        split at h
        · exact ihA _ _ _ _ h hacc'
        · obtain ⟨rfl, rfl⟩ := Prod.mk.inj (Option.some.inj h)
          exact hacc'
        · exact Option.noConfusion h
    · intro cs acc v r h hacc hnd
      cases cs with
      | nil =>
        rw [parseObj] at h
        exact Option.noConfusion h
      | cons c0 rest =>
        rw [parseObj] at h
        split_ifs at h
        · split at h
          · exact Option.noConfusion h
          · rename_i kk r1 heq
            split at h
            · rename_i r2
              split at h
              · exact Option.noConfusion h
              · rename_i v2 r3 heq2
                have hv2 : jsonWF v2 = true := ihV _ _ _ heq2
                have hacc' : jsonFieldsWF (setField acc (String.mk kk) v2) = true :=
                  jsonFieldsWF_setField acc _ v2 hacc hv2
                have hnd' : ((setField acc (String.mk kk) v2).map Prod.fst).Nodup :=
                  nodup_setField acc _ v2 hnd
                split at h
                · exact ihO _ _ _ _ h hacc' hnd'
                · obtain ⟨rfl, rfl⟩ := Prod.mk.inj (Option.some.inj h)
                  simp only [jsonWF, Bool.and_eq_true, decide_eq_true_eq]
                  exact ⟨hnd', hacc'⟩
                · exact Option.noConfusion h
            · exact Option.noConfusion h


/-! `json.loads` level: the dumped text parses back, well-formed. -/

theorem parseJson_WF (s : String) (v : Json) (h : parseJson s = some v) :
    jsonWF v = true := by
  unfold parseJson at h
  cases heq : parseValue (s.length + 1) s.data with
  | none =>
    rw [heq] at h
    exact Option.noConfusion h
  | some p =>
    obtain ⟨w, rest⟩ := p
    rw [heq] at h
    have h' : (if skipWs rest = [] then some w else none) = some v := h
    split_ifs at h' with hsw
    have hwv : w = v := Option.some.inj h'
    subst hwv
    exact (parseWF _).1 _ _ _ heq

theorem parseJson_print (v : Json) (h : jsonWF v = true) :
    parseJson (dumpsPretty v) = some v := by
  have hv : parseValue ((printValue 0 v).length + 1) (printValue 0 v ++ []) = some (v, []) :=
    (roundTripAux _).1 v 0 [] h
      (le_trans (jfuel_le_print v 0) (by omega)) rfl
  rw [List.append_nil] at hv
  unfold parseJson dumpsPretty
  rw [show (String.mk (printValue 0 v)).data = printValue 0 v from rfl,
    show (String.mk (printValue 0 v)).length = (printValue 0 v).length from rfl, hv]
  rfl


theorem read_ok_WF (maxBytes : Int) (hdr : Option String) (body : List Nat)
    (fields : List (String × Json))
    (h : _read_json_body maxBytes hdr body = .ok fields) :
    jsonWF (Json.obj fields) = true := by
  unfold _read_json_body at h
  split at h
  · exact Except.noConfusion h
  · rename_i hs
    split_ifs at h
    split at h
    · exact Except.noConfusion h
    · rename_i length hlen
      split_ifs at h
      unfold parseBodyBytes at h
      split at h
      · exact Except.noConfusion h
      · rename_i chars hdec
        split at h
        · exact Except.noConfusion h
        · rename_i fields' heq
          have hff : fields' = fields := Except.ok.inj h
          subst hff
          exact parseJson_WF _ _ heq
        · exact Except.noConfusion h

/-- C5: for every payload accepted by POST /ingest (one whose body parsed as
a JSON object), the relay is invoked with the full parsed object; the
outbound message body and attachment both carry the pretty-printed text of
that object; re-parsing that text yields the accepted payload back; and any
field of the accepted payload, `to` and `subject` included, is still looked
up unchanged in the relayed object. -/
theorem C5_round_trip (cfg : AppConfig) (smtpFail : Option String) (req : HttpRequest)
    (fields : List (String × Json))
    (hparse : _read_json_body cfg.max_body_bytes req.contentLength req.body = .ok fields)
    (hpath : urlparsePath req.rawPath = "/ingest") :
    (do_POST cfg smtpFail req).relayCall =
      some (resolve_mail_to cfg fields, resolve_subject cfg fields, Json.obj fields) ∧
    (∀ mail_to subject,
      (send_json_msg cfg.smtp mail_to subject (Json.obj fields)).content =
        dumpsPretty (Json.obj fields) ∧
      (send_json_msg cfg.smtp mail_to subject (Json.obj fields)).attachmentBytes =
        utf8Encode (dumpsPretty (Json.obj fields))) ∧
    parseJson (dumpsPretty (Json.obj fields)) = some (Json.obj fields) ∧
    (∀ mail_to subject o,
      (do_POST cfg smtpFail req).relayCall = some (mail_to, subject, o) →
      o = Json.obj fields ∧
      ∀ w k, lookupField fields k = some w →
        ∃ fs, o = Json.obj fs ∧ lookupField fs k = some w) := by
  have hrelay := do_POST_relay_args cfg smtpFail req fields hparse hpath
  have hWF := read_ok_WF _ _ _ _ hparse
  refine ⟨hrelay, fun mt sub => ⟨rfl, rfl⟩, parseJson_print _ hWF, ?_⟩
  intro mt sub o ho
  rw [hrelay] at ho
  obtain ⟨h1, h23⟩ := Prod.mk.inj (Option.some.inj ho)
  obtain ⟨h2, h3⟩ := Prod.mk.inj h23
  exact ⟨h3.symm, fun w k hk => ⟨fields, h3.symm, hk⟩⟩

/-- Closed witness for C5 at a concrete ingest request. -/
theorem C5_round_trip_witness :
    (do_POST (sampleCfg true) none
        (sampleReq "\x7b\"to\": \"a@b\", \"subject\": \"S\", \"n\": 7\x7d")).relayCall =
      some (resolve_mail_to (sampleCfg true)
          [("to", Json.str "a@b"), ("subject", Json.str "S"), ("n", Json.num 7 0)],
        resolve_subject (sampleCfg true)
          [("to", Json.str "a@b"), ("subject", Json.str "S"), ("n", Json.num 7 0)],
        Json.obj [("to", Json.str "a@b"), ("subject", Json.str "S"), ("n", Json.num 7 0)]) ∧
    (∀ mail_to subject,
      (send_json_msg (sampleCfg true).smtp mail_to subject
          (Json.obj [("to", Json.str "a@b"), ("subject", Json.str "S"),
            ("n", Json.num 7 0)])).content =
        dumpsPretty (Json.obj [("to", Json.str "a@b"), ("subject", Json.str "S"),
          ("n", Json.num 7 0)]) ∧
      (send_json_msg (sampleCfg true).smtp mail_to subject
          (Json.obj [("to", Json.str "a@b"), ("subject", Json.str "S"),
            ("n", Json.num 7 0)])).attachmentBytes =
        utf8Encode (dumpsPretty (Json.obj [("to", Json.str "a@b"), ("subject", Json.str "S"),
          ("n", Json.num 7 0)]))) ∧
    parseJson (dumpsPretty (Json.obj [("to", Json.str "a@b"), ("subject", Json.str "S"),
        ("n", Json.num 7 0)])) =
      some (Json.obj [("to", Json.str "a@b"), ("subject", Json.str "S"),
        ("n", Json.num 7 0)]) ∧
    (∀ mail_to subject o,
      (do_POST (sampleCfg true) none
          (sampleReq "\x7b\"to\": \"a@b\", \"subject\": \"S\", \"n\": 7\x7d")).relayCall =
        some (mail_to, subject, o) →
      o = Json.obj [("to", Json.str "a@b"), ("subject", Json.str "S"), ("n", Json.num 7 0)] ∧
      ∀ w k, lookupField [("to", Json.str "a@b"), ("subject", Json.str "S"),
          ("n", Json.num 7 0)] k = some w →
        ∃ fs, o = Json.obj fs ∧ lookupField fs k = some w) :=
  C5_round_trip (sampleCfg true) none
    (sampleReq "\x7b\"to\": \"a@b\", \"subject\": \"S\", \"n\": 7\x7d")
    [("to", Json.str "a@b"), ("subject", Json.str "S"), ("n", Json.num 7 0)]
    (by rfl) (by rfl)


/-! The Mail Relay lock discipline (C9): holder tracking, program shape,
and the no-interleaving theorem. -/

theorem sessionAct_facts (b : MailAction) (h : isSessionAct b = true) :
    ¬(b = MailAction.acquire) ∧ ¬(b = MailAction.release) := by
  cases b <;> simp_all [isSessionAct]

theorem sendProgram_decomp (tls auth : Bool) :
    ∃ PRE, sendProgram tls auth = PRE ++ [MailAction.release] ∧
      MailAction.release ∉ PRE ∧ PRE.head? = some MailAction.acquire := by
  cases tls <;> cases auth
  · exact ⟨[.acquire, .opn, .ehlo, .transmit, .close], by rfl, by decide, by rfl⟩
  · exact ⟨[.acquire, .opn, .ehlo, .login, .transmit, .close], by rfl, by decide, by rfl⟩
  · exact ⟨[.acquire, .opn, .ehlo, .upgrade, .ehlo, .transmit, .close], by rfl, by decide,
      by rfl⟩
  · exact ⟨[.acquire, .opn, .ehlo, .upgrade, .ehlo, .login, .transmit, .close], by rfl,
      by decide, by rfl⟩

theorem sendProgram_head (tls auth : Bool) :
    (sendProgram tls auth).head? = some MailAction.acquire := by
  cases tls <;> cases auth <;> rfl

theorem prefix_head {π l : List MailAction} (h : π <+: l) (hne : π ≠ []) :
    π.head? = l.head? := by
  obtain ⟨rest, rfl⟩ := h
  cases π
  · exact absurd rfl hne
  · rfl

theorem prefix_last_mem (π PRE : List MailAction) (x : MailAction) (hx : x ∉ PRE)
    (hpre : π <+: PRE ++ [x]) (hmem : x ∈ π) : π = PRE ++ [x] := by
  obtain ⟨rest, hr⟩ := hpre
  cases rest with
  | nil => simpa using hr
  | cons r0 rs =>
    exfalso
    have hlen : π.length + (r0 :: rs).length = PRE.length + 1 := by
      rw [← List.length_append, hr]
      simp
    have hle : π.length ≤ PRE.length := by
      simp only [List.length_cons] at hlen
      omega
    have h2 := List.prefix_iff_eq_take.mp ⟨r0 :: rs, hr⟩
    rw [List.take_append_of_le_length hle] at h2
    have hpx : π <+: PRE := by
      rw [h2]
      exact List.take_prefix _ _
    exact hx (hpx.subset hmem)

theorem threadEvents_mem (t : Nat) (σ : List (Nat × MailAction)) (a : MailAction)
    (h : a ∈ threadEvents t σ) : (t, a) ∈ σ := by
  unfold threadEvents at h
  rcases List.mem_map.mp h with ⟨p, hp, rfl⟩
  rcases List.mem_filter.mp hp with ⟨hmem, heq⟩
  obtain ⟨u, b⟩ := p
  have hu : u = t := by simpa using heq
  subst hu
  exact hmem

theorem mem_threadEvents (t : Nat) (σ : List (Nat × MailAction)) (a : MailAction)
    (h : (t, a) ∈ σ) : a ∈ threadEvents t σ := by
  unfold threadEvents
  exact List.mem_map.mpr ⟨(t, a), List.mem_filter.mpr ⟨h, by simp⟩, rfl⟩

theorem threadEvents_take_le (u : Nat) (τ : List (Nat × MailAction)) (j : Nat) :
    threadEvents u (τ.take j) <+: threadEvents u τ := by
  unfold threadEvents
  exact ((List.take_prefix j τ).filter _).map _

theorem take_succ_get (τ : List (Nat × MailAction)) (m : Nat) (p : Nat × MailAction)
    (h : τ[m]? = some p) : τ.take (m + 1) = τ.take m ++ [p] := by
  rw [List.take_succ, h]
  rfl

theorem threadEvents_snoc_self (t : Nat) (σ : List (Nat × MailAction)) (a : MailAction) :
    threadEvents t (σ ++ [(t, a)]) = threadEvents t σ ++ [a] := by
  simp [threadEvents, List.filter_append]

theorem mem_take_mono {α : Type} {l : List α} {i j : Nat} (hij : i ≤ j) {x : α}
    (h : x ∈ l.take i) : x ∈ l.take j := by
  have heq : l.take i = (l.take j).take i := by
    rw [List.take_take, Nat.min_eq_left hij]
  rw [heq] at h
  exact (List.take_prefix _ _).subset h

theorem holderAfter_append (xs ys : List (Nat × MailAction)) (st : Option Nat) :
    holderAfter st (xs ++ ys) = holderAfter (holderAfter st xs) ys := by
  induction xs generalizing st with
  | nil => rfl
  | cons p xs' ih =>
    obtain ⟨u, a⟩ := p
    cases a <;> simp [holderAfter, ih]

theorem lockOk_append (xs ys : List (Nat × MailAction)) (st : Option Nat) :
    lockOk st (xs ++ ys) = (lockOk st xs && lockOk (holderAfter st xs) ys) := by
  induction xs generalizing st with
  | nil => simp [lockOk, holderAfter]
  | cons p xs' ih =>
    obtain ⟨u, a⟩ := p
    cases a <;> cases st <;> simp [lockOk, holderAfter, ih, Bool.and_assoc]

theorem lock_hold (σ : List (Nat × MailAction)) (t : Nat)
    (h : lockOk (some t) σ = true) (hnr : ¬((t, MailAction.release) ∈ σ)) :
    holderAfter (some t) σ = some t := by
  induction σ with
  | nil => rfl
  | cons p σ' ih =>
    obtain ⟨u, a⟩ := p
    simp only [List.mem_cons, not_or] at hnr
    cases a with
    | acquire => simp [lockOk] at h
    | release =>
      simp only [lockOk, Bool.and_eq_true, beq_iff_eq] at h
      exact absurd (by rw [h.1] : (t, MailAction.release) = (u, MailAction.release)) hnr.1
    | opn => exact ih (by simpa [lockOk] using h) hnr.2
    | ehlo => exact ih (by simpa [lockOk] using h) hnr.2
    | upgrade => exact ih (by simpa [lockOk] using h) hnr.2
    | login => exact ih (by simpa [lockOk] using h) hnr.2
    | transmit => exact ih (by simpa [lockOk] using h) hnr.2
    | close => exact ih (by simpa [lockOk] using h) hnr.2


theorem acquire_before (τ : List (Nat × MailAction)) (tls auth : Nat → Bool)
    (hprog : ∀ u, threadEvents u τ <+: sendProgram (tls u) (auth u))
    (m : Nat) (t : Nat) (a : MailAction)
    (hm : τ[m]? = some (t, a)) (ha : isSessionAct a = true) :
    (t, MailAction.acquire) ∈ τ.take m := by
  have hsplit := take_succ_get τ m (t, a) hm
  have hE : threadEvents t (τ.take (m + 1)) = threadEvents t (τ.take m) ++ [a] := by
    rw [hsplit, threadEvents_snoc_self]
  have hpre : threadEvents t (τ.take (m + 1)) <+: sendProgram (tls t) (auth t) :=
    (threadEvents_take_le t τ (m + 1)).trans (hprog t)
  have hne : threadEvents t (τ.take (m + 1)) ≠ [] := by
    rw [hE]
    simp
  have hhead : (threadEvents t (τ.take (m + 1))).head? = some MailAction.acquire := by
    rw [prefix_head hpre hne, sendProgram_head]
  cases hev : threadEvents t (τ.take m) with
  | nil =>
    rw [hE, hev] at hhead
    simp only [List.nil_append, List.head?_cons, Option.some.injEq] at hhead
    exact absurd hhead (sessionAct_facts a ha).1
  | cons e0 es =>
    rw [hE, hev] at hhead
    simp only [List.cons_append, List.head?_cons, Option.some.injEq] at hhead
    have : MailAction.acquire ∈ threadEvents t (τ.take m) := by
      rw [hev, ← hhead]
      exact List.mem_cons_self _ _
    exact threadEvents_mem t _ _ this

theorem no_release_before (τ : List (Nat × MailAction)) (tls auth : Nat → Bool)
    (hprog : ∀ u, threadEvents u τ <+: sendProgram (tls u) (auth u))
    (m j : Nat) (t : Nat) (c : MailAction)
    (hm : τ[m]? = some (t, c)) (hc : isSessionAct c = true) (hjm : j ≤ m) :
    ¬((t, MailAction.release) ∈ τ.take j) := by
  intro hin
  have hin' : (t, MailAction.release) ∈ τ.take m := mem_take_mono hjm hin
  have hrel : MailAction.release ∈ threadEvents t (τ.take m) := mem_threadEvents t _ _ hin'
  have hsplit := take_succ_get τ m (t, c) hm
  have hE : threadEvents t (τ.take (m + 1)) = threadEvents t (τ.take m) ++ [c] := by
    rw [hsplit, threadEvents_snoc_self]
  have hpre : threadEvents t (τ.take (m + 1)) <+: sendProgram (tls t) (auth t) :=
    (threadEvents_take_le t τ (m + 1)).trans (hprog t)
  obtain ⟨PRE, hP, hPn, _⟩ := sendProgram_decomp (tls t) (auth t)
  rw [hP] at hpre
  have hfull : threadEvents t (τ.take (m + 1)) = PRE ++ [MailAction.release] :=
    prefix_last_mem _ PRE _ hPn hpre
      (by rw [hE]; exact List.mem_append_left _ hrel)
  have hlast : (threadEvents t (τ.take (m + 1))).getLast? = some MailAction.release := by
    rw [hfull]
    simp
  rw [hE] at hlast
  simp only [List.getLast?_append, List.getLast?_singleton] at hlast
  exact absurd (Option.some.inj hlast) (sessionAct_facts c hc).2

theorem holder_at (τ : List (Nat × MailAction)) (j : Nat) (t : Nat)
    (hlock : lockOk none τ = true)
    (hacq : (t, MailAction.acquire) ∈ τ.take j)
    (hnrel : ¬((t, MailAction.release) ∈ τ.take j)) :
    holderAfter none (τ.take j) = some t := by
  have hlockj : lockOk none (τ.take j) = true := by
    have := lockOk_append (τ.take j) (τ.drop j) none
    rw [List.take_append_drop] at this
    rw [hlock] at this
    exact (Bool.and_eq_true _ _).mp this.symm |>.1
  obtain ⟨α, β, hsplit⟩ := List.append_of_mem hacq
  rw [hsplit] at hlockj hnrel ⊢
  have h2 : lockOk (holderAfter none α) ((t, MailAction.acquire) :: β) = true := by
    rw [lockOk_append] at hlockj
    exact ((Bool.and_eq_true _ _).mp hlockj).2
  have h3 : lockOk (some t) β = true := by
    cases hst : holderAfter none α with
    | none =>
      rw [hst] at h2
      simpa [lockOk] using h2
    | some w =>
      rw [hst] at h2
      simp [lockOk] at h2
  have hnrelβ : ¬((t, MailAction.release) ∈ β) := by
    intro hx
    exact hnrel (List.mem_append_right _ (List.mem_cons_of_mem _ hx))
  rw [holderAfter_append]
  show holderAfter (some t) β = some t
  exact lock_hold β t h3 hnrelβ

/-- C9: with the shared lock's semantics and every thread running the
`send_json` transport program, no two transport sessions interleave: any
session action strictly between two session actions of one thread belongs
to that same thread; and each program holds the lock around the whole
session, acquiring first and releasing last. -/
theorem C9_lock_serializes (τ : List (Nat × MailAction)) (tls auth : Nat → Bool)
    (hlock : lockOk none τ = true)
    (hprog : ∀ u, threadEvents u τ <+: sendProgram (tls u) (auth u))
    (i j k : Nat) (t u : Nat) (a b c : MailAction)
    (hij : i < j) (hjk : j < k)
    (hi : τ[i]? = some (t, a)) (hj : τ[j]? = some (u, b)) (hk : τ[k]? = some (t, c))
    (ha : isSessionAct a = true) (hb : isSessionAct b = true)
    (hc : isSessionAct c = true) :
    u = t ∧
    ∀ tls2 auth2 : Bool, ∃ mid, sendProgram tls2 auth2 =
        MailAction.acquire :: (mid ++ [MailAction.release]) ∧
      ∀ x ∈ mid, isSessionAct x = true := by
  constructor
  · have h1 : holderAfter none (τ.take j) = some u :=
      holder_at τ j u hlock (acquire_before τ tls auth hprog j u b hj hb)
        (no_release_before τ tls auth hprog j j u b hj hb le_rfl)
    have hacq_t : (t, MailAction.acquire) ∈ τ.take j :=
      mem_take_mono (Nat.le_of_lt hij) (acquire_before τ tls auth hprog i t a hi ha)
    have h2 : holderAfter none (τ.take j) = some t :=
      holder_at τ j t hlock hacq_t
        (no_release_before τ tls auth hprog k j t c hk hc (Nat.le_of_lt hjk))
    exact Option.some.inj (h1.symm.trans h2)
  · intro tls2 auth2
    cases tls2 <;> cases auth2
    · exact ⟨[.opn, .ehlo, .transmit, .close], by rfl, by decide⟩
    · exact ⟨[.opn, .ehlo, .login, .transmit, .close], by rfl, by decide⟩
    · exact ⟨[.opn, .ehlo, .upgrade, .ehlo, .transmit, .close], by rfl, by decide⟩
    · exact ⟨[.opn, .ehlo, .upgrade, .ehlo, .login, .transmit, .close], by rfl, by decide⟩


/-- Closed witness for C9: a serialized two-thread trace. -/
theorem C9_lock_serializes_witness :
    (0 : Nat) = 0 ∧
    ∀ tls2 auth2 : Bool, ∃ mid, sendProgram tls2 auth2 =
        MailAction.acquire :: (mid ++ [MailAction.release]) ∧
      ∀ x ∈ mid, isSessionAct x = true :=
  C9_lock_serializes
    [(0, .acquire), (0, .opn), (0, .ehlo), (0, .upgrade), (0, .ehlo), (0, .transmit),
      (0, .close), (0, .release), (1, .acquire), (1, .opn), (1, .ehlo), (1, .transmit),
      (1, .close), (1, .release)]
    (fun u => u == 0) (fun _ => false)
    (by decide)
    (fun u => by
      match u with
      | 0 => decide
      | 1 => decide
      | n + 2 => exact List.nil_prefix)
    1 2 5 0 0 .opn .ehlo .transmit
    (by decide) (by decide) (by rfl) (by rfl) (by rfl) (by decide) (by decide) (by decide)

end Roberta
